import Mathlib

/-!
# RNNLIB `MultiArray` (src/MultiArray.hpp): a shallow embedding

A `MultiArray<T>` owns a flat buffer `data`, a `shape` and a derived table of
row-major `strides`.  The embedding follows the member functions of the header
statement by statement.

Conventions of the embedding

* `std::vector` is a `List`; `size_t` is a natural number and every `size_t`
  multiplication is reduced modulo `SIZE_MOD = 2 ^ 64` (LP64 data model);
  `int` is an integer between `INT_MIN` and `INT_MAX` (32 bits).
* A mutating member function returns an `Outcome`: the fault it stopped with
  (if any) together with the array state at that moment.
* Positions inside the buffer (the `T*` of a `View`) are element offsets
  relative to `&data.front()`; `Ptr.null` is the null pointer.  A pointer is
  moved by a `size_t` number of elements and the address wraps around: in
  element units the position is kept modulo `2 ^ 64` (`ptr_add`).  For elements
  larger than one byte the byte address wraps earlier, at `2 ^ 64 / sizeof(T)`
  elements; no statement below depends on a position that large: the general
  statements about the value of a position are made where the positions lie
  within the buffer, and the concrete ones use small positions.
* `reshape` is the execution in which the allocations of `resize_data` succeed;
  the execution in which `data.resize` throws (`std::bad_alloc`,
  `std::length_error`) is `reshape_resize_throws`.  The number of dimensions
  is assumed to fit the `int` loop counter of `resize_data`.
-/

namespace rnnlib

/-- Number of values of the unsigned type `size_t`. -/
def SIZE_MOD : Nat := 2 ^ 64

/-- Least value of `int`. -/
def INT_MIN : Int := -(2 ^ 31)

/-- Greatest value of `int`. -/
def INT_MAX : Int := 2 ^ 31 - 1

/-- The ways a member function can stop abnormally: a failed `assert`, a failed
`check` (Helpers.hpp), `std::out_of_range` thrown by `vector::at`, undefined
behaviour (reading through an invalid iterator or pointer), and an exception
thrown by an allocation (`std::bad_alloc`, `std::length_error`). -/
inductive Fault where
  | assertion
  | check
  | out_of_range
  | undefined
  | alloc
deriving DecidableEq, Repr

/-- The three data members of `MultiArray<T>`. -/
structure MultiArray (T : Type) where
  data : List T
  shape : List Nat
  strides : List Nat
deriving DecidableEq, Repr

/-- Result of a mutating member function: `fault = none` on normal return, and
the state of the array when the function returned or stopped. -/
structure Outcome (T : Type) where
  fault : Option Fault
  state : MultiArray T
deriving DecidableEq, Repr

/-- A position handed to a `View`: the null pointer, or the element offset
relative to `&data.front()`. -/
inductive Ptr where
  | null
  | elem (off : Int)
deriving DecidableEq, Repr

/-- Modelled from the spec: the class template `View` of Helpers.hpp, which is
not among the sources: a non-owning pair (start position, end position)
delimiting a contiguous run of elements. -/
structure View where
  start : Ptr
  stop : Ptr
deriving DecidableEq, Repr

/-- Modelled from the spec: emptiness of a `View` is the equality of its
endpoints. -/
def View.empty (v : View) : Bool := v.start == v.stop

/-- Number of elements of a `View` whose endpoints are buffer positions
(`end - start`); the null view has none. -/
def View.length (v : View) : Int :=
  match v.start, v.stop with
  | Ptr.elem s, Ptr.elem e => e - s
  | _, _ => 0

/-- The sentinel `View<T>(0, 0)`. -/
def View.nullView : View := ⟨Ptr.null, Ptr.null⟩

/-- The call `v.resize(n)` of `std::vector`: truncate to `n` elements or extend
with value-initialised elements `d`. -/
def vector_resize {α : Type} (v : List α) (n : Nat) (d : α) : List α :=
  v.take n ++ List.replicate (n - v.length) d

/-- Modelled from the spec: the helper `product` of Helpers.hpp, which is not
among the sources: the product of the entries of a range, accumulated in the
value type of the range, here `size_t`. -/
def product (r : List Nat) : Nat :=
  r.foldl (fun acc x => acc * x % SIZE_MOD) 1

/-- The default constructor `MultiArray()`: three empty vectors. -/
def MultiArray.empty_array (T : Type) : MultiArray T := ⟨[], [], []⟩

/-- Member `size()`. -/
def MultiArray.size {T : Type} (a : MultiArray T) : Nat := a.data.length

/-- Member `num_dims()`. -/
def MultiArray.num_dims {T : Type} (a : MultiArray T) : Nat := a.shape.length

/-- Member `empty()`. -/
def MultiArray.empty {T : Type} (a : MultiArray T) : Bool := a.data.isEmpty

/-- The loop of `resize_data`,
`for (int i = shape.size()-2; i >= 0; --i) strides.at(i) = strides.at(i+1) * shape.at(i+1);`
The first argument is `i + 1` (so `0` means the loop is over); the result is the
fault raised by `at` (if any) and the stride table at that moment. -/
def strides_loop (shape : List Nat) : Nat → List Nat → Option Fault × List Nat
  | 0, st => (none, st)
  | i + 1, st =>
    match st[i + 1]?, shape[i + 1]? with
    | some t, some d =>
      if i < st.length then strides_loop shape i (st.set i (t * d % SIZE_MOD))
      else (some Fault.out_of_range, st)
    | _, _ => (some Fault.out_of_range, st)

/-- Member `resize_data()`, in the execution where `data.resize` and
`strides.resize` do not throw. -/
def MultiArray.resize_data {T : Type} [Inhabited T] (a : MultiArray T) : Outcome T :=
  let a1 : MultiArray T := { a with data := vector_resize a.data (product a.shape) default }
  let a2 : MultiArray T := { a1 with strides := vector_resize a1.strides a1.shape.length 0 }
  if a2.strides.length = 0 then
    -- `strides.back()` of an empty vector
    ⟨some Fault.undefined, a2⟩
  else
    let a3 : MultiArray T := { a2 with strides := a2.strides.set (a2.strides.length - 1) 1 }
    let r := strides_loop a3.shape (a3.shape.length - 1) a3.strides
    ⟨r.1, { a3 with strides := r.2 }⟩

/-- Member `reshape(newShape)`; `vector_assign` (Helpers.hpp) copies the range
`newShape` into `shape`.  This is the execution where the allocations of
`resize_data` succeed; see `reshape_resize_throws` for the other one. -/
def MultiArray.reshape {T : Type} [Inhabited T] (a : MultiArray T) (newShape : List Nat) :
    Outcome T :=
  if newShape.length = 0 then ⟨some Fault.assertion, a⟩
  else MultiArray.resize_data { a with shape := newShape }

/-- Member `reshape(dims, fillval)`; `fill` (Helpers.hpp) sets every element of
`data` to `fillval`. -/
def MultiArray.reshape_fill {T : Type} [Inhabited T] (a : MultiArray T) (dims : List Nat)
    (fillval : T) : Outcome T :=
  let r := a.reshape dims
  match r.fault with
  | some _ => r
  | none => ⟨none, { r.state with data := r.state.data.map (fun _ => fillval) }⟩

/-- The constructor `MultiArray(s)`. -/
def MultiArray.construct {T : Type} [Inhabited T] (s : List Nat) : Outcome T :=
  (MultiArray.empty_array T).reshape s

/-- The constructor `MultiArray(s, fillval)`. -/
def MultiArray.construct_fill {T : Type} [Inhabited T] (s : List Nat) (fillval : T) :
    Outcome T :=
  (MultiArray.empty_array T).reshape_fill s fillval

/-- Conversion of an `int` to `size_t` (usual arithmetic conversions). -/
def to_size_t (c : Int) : Nat := (c % (SIZE_MOD : Int)).toNat

/-- The loop of `in_range`: `coordIt` and `shapeIt` advance together; the test is
`c < 0 || c >= *shapeIt`, the second comparison being made in `size_t`.  The
caller has checked `coords.size() <= shape.size()`, so `shapeIt` cannot run out
before `coordIt`. -/
def in_range_loop : List Int → List Nat → Bool
  | [], _ => true
  | _ :: _, [] => false
  | c :: cs, d :: ds =>
    if c < 0 ∨ to_size_t c ≥ d then false else in_range_loop cs ds

/-- Member `in_range(coords)`. -/
def MultiArray.in_range {T : Type} (a : MultiArray T) (coords : List Int) : Bool :=
  if coords.length > a.shape.length then false
  else in_range_loop coords a.shape

/-- Pointer displacement `p + n` for a `size_t` number `n` of elements: the
address wraps around, so the position is taken modulo `2 ^ 64`. -/
def ptr_add (p : Int) (n : Nat) : Int := (p + (n : Int)) % (SIZE_MOD : Int)

/-- The loop of `operator[]`: `start += (*coordIt * *strideIt)` with `coordIt`
and `strideIt` advancing together.  The coordinate is converted to `size_t`,
the product is a `size_t` product (reduced modulo `2 ^ 64`), and the pointer is
moved by that many elements.  Reading `*strideIt` past the end of `strides` is
undefined behaviour. -/
def offset_loop : List Int → List Nat → Int → Except Fault Int
  | [], _, start => Except.ok start
  | _ :: _, [], _ => Except.error Fault.undefined
  | c :: cs, st :: sts, start =>
    offset_loop cs sts (ptr_add start (to_size_t c * st % SIZE_MOD))

/-- Member `operator[](coords)` (non-const overload).  The expressions
`&data.front()` and `&*data.end()` are address computations: they denote the
positions `0` and `size()` of the buffer, also when the buffer is empty. -/
def MultiArray.op_index {T : Type} (a : MultiArray T) (coords : List Int) : Except Fault View :=
  if ¬ coords.length ≤ a.shape.length then Except.error Fault.check
  else if coords.isEmpty then Except.ok ⟨Ptr.elem 0, Ptr.elem a.data.length⟩
  else
    match offset_loop coords a.strides 0 with
    | Except.error f => Except.error f
    | Except.ok start =>
      -- `T* end = start + *(--strideIt)`: the stride of the last axis used
      match a.strides[coords.length - 1]? with
      | none => Except.error Fault.undefined
      | some st => Except.ok ⟨Ptr.elem start, Ptr.elem (ptr_add start st)⟩

/-- Member `operator[](coords) const`: the same statements over `const T*`. -/
def MultiArray.op_index_const {T : Type} (a : MultiArray T) (coords : List Int) :
    Except Fault View :=
  if ¬ coords.length ≤ a.shape.length then Except.error Fault.check
  else if coords.isEmpty then Except.ok ⟨Ptr.elem 0, Ptr.elem a.data.length⟩
  else
    match offset_loop coords a.strides 0 with
    | Except.error f => Except.error f
    | Except.ok start =>
      match a.strides[coords.length - 1]? with
      | none => Except.error Fault.undefined
      | some st => Except.ok ⟨Ptr.elem start, Ptr.elem (ptr_add start st)⟩

/-- Member `at(coords)` (non-const overload). -/
def MultiArray.at_ {T : Type} (a : MultiArray T) (coords : List Int) : Except Fault View :=
  if a.in_range coords then a.op_index coords
  else Except.ok View.nullView

/-- Member `at(coords) const`. -/
def MultiArray.at_const {T : Type} (a : MultiArray T) (coords : List Int) : Except Fault View :=
  if a.in_range coords then a.op_index_const coords
  else Except.ok View.nullView

/-- Reading through a position: defined only for the offset of an element of
the buffer. -/
def deref {T : Type} (data : List T) : Ptr → Except Fault T
  | Ptr.null => Except.error Fault.undefined
  | Ptr.elem off =>
    if 0 ≤ off then
      match data[off.toNat]? with
      | some x => Except.ok x
      | none => Except.error Fault.undefined
    else Except.error Fault.undefined

/-- Member `get(coords)` (non-const overload), read through the returned
reference: `*((*this)[coords].begin())`. -/
def MultiArray.get {T : Type} (a : MultiArray T) (coords : List Int) : Except Fault T :=
  if coords.length ≠ a.shape.length then Except.error Fault.check
  else
    match a.op_index coords with
    | Except.error f => Except.error f
    | Except.ok v => deref a.data v.start

/-- Member `get(coords) const`: `(*this)[coords].front()`. -/
def MultiArray.get_const {T : Type} (a : MultiArray T) (coords : List Int) : Except Fault T :=
  if coords.length ≠ a.shape.length then Except.error Fault.check
  else
    match a.op_index_const coords with
    | Except.error f => Except.error f
    | Except.ok v => deref a.data v.start

/-- Writing through a position. -/
def store {T : Type} (data : List T) (x : T) : Ptr → Option (List T)
  | Ptr.null => none
  | Ptr.elem off => if 0 ≤ off ∧ off.toNat < data.length then some (data.set off.toNat x) else none

/-- The statement `a.get(coords) = x`: a write through the reference returned by
the non-const `get`. -/
def MultiArray.get_write {T : Type} (a : MultiArray T) (coords : List Int) (x : T) : Outcome T :=
  if coords.length ≠ a.shape.length then ⟨some Fault.check, a⟩
  else
    match a.op_index coords with
    | Except.error f => ⟨some f, a⟩
    | Except.ok v =>
      match store a.data x v.start with
      | some d => ⟨none, { a with data := d }⟩
      | none => ⟨some Fault.undefined, a⟩

/-- Member `assign(a)`: `reshape(a.shape)` followed by
`copy(a.data.begin(), a.data.end(), data.begin())`, each element converted
from `T2` to `T`; the source is an object other than `*this`.  Copying more
elements than `data` holds is undefined behaviour. -/
def MultiArray.assign {T T2 : Type} [Inhabited T] (convert : T2 → T) (self : MultiArray T)
    (a : MultiArray T2) : Outcome T :=
  let r := self.reshape a.shape
  match r.fault with
  | some _ => r
  | none =>
    if a.data.length ≤ r.state.data.length then
      ⟨none, { r.state with
        data := a.data.map convert ++ r.state.data.drop a.data.length }⟩
    else ⟨some Fault.undefined, r.state⟩

/-- The member template `operator=(a)` of lines 173-177: calls `assign(a)`.  The
expression `self = a` selects it when the element type `T2` of `a` is a type
other than `T`. -/
def MultiArray.op_assign {T T2 : Type} [Inhabited T] (convert : T2 → T) (self : MultiArray T)
    (a : MultiArray T2) : Outcome T :=
  self.assign convert a

/-- The expression `self = a` for a source of the same element type `T`: a
member template is never a copy-assignment operator, so the implicitly declared
copy assignment is selected, which copies `data`, `shape` and `strides` member
by member. -/
def MultiArray.op_assign_copy {T : Type} (_self : MultiArray T) (a : MultiArray T) :
    Outcome T :=
  ⟨none, ⟨a.data, a.shape, a.strides⟩⟩

/-- The execution of `reshape(newShape)` in which `data.resize` throws
(`std::length_error`, `std::bad_alloc`), possible when the buffer has to grow:
the assertion has passed and `shape` is already overwritten (line 85), the
buffer is unchanged (`resize` throws before changing the vector) and `strides`
has not been touched yet. -/
def MultiArray.reshape_resize_throws {T : Type} (a : MultiArray T) (newShape : List Nat) :
    Outcome T :=
  if newShape.length = 0 then ⟨some Fault.assertion, a⟩
  else ⟨some Fault.alloc, { a with shape := newShape }⟩

/-- The free function `operator==`. -/
def MultiArray.op_eq {T : Type} [DecidableEq T] (a b : MultiArray T) : Bool :=
  decide (a.data = b.data) && decide (a.shape = b.shape)

/-! ## Closed forms used to state the properties -/

/-- Row-major stride table of a shape, in `size_t` arithmetic: the stride of an
axis is the product of the sizes of the later axes. -/
def row_major : List Nat → List Nat
  | [] => []
  | _ :: ds => (ds.prod % SIZE_MOD) :: row_major ds

/-- Flat offset of a coordinate list: the sum over the supplied axes `i` of
`coords[i] * strides[i]`. -/
def flat_offset (coords : List Int) (strides : List Nat) : Int :=
  (List.zipWith (fun c st => c * (st : Int)) coords strides).sum

/-- Length of the slab that a coordinate prefix of length `k` selects: `size()`
when `k == 0`, and `strides[k-1]` otherwise. -/
def MultiArray.slab_length {T : Type} (a : MultiArray T) (k : Nat) : Nat :=
  if k = 0 then a.data.length else a.strides.getD (k - 1) 0

/-- Data-model invariant of the spec, the product being taken in `size_t`:
`data.size() == product(shape)` and `strides.size() == shape.size()`. -/
def MultiArray.invariant {T : Type} (a : MultiArray T) : Prop :=
  a.data.length = a.shape.prod % SIZE_MOD ∧ a.strides.length = a.shape.length

/-- The array states reachable from a default-constructed array by calls of
`reshape`, `reshape` with a fill value, `assign` (from any source) and writes
through `get`, in executions where no allocation throws; a call that stops on
an assertion, a check or an undefined access leaves the state it stopped
in. -/
inductive Reachable {T : Type} [Inhabited T] : MultiArray T → Prop where
  | init : Reachable (MultiArray.empty_array T)
  | reshape (a : MultiArray T) (s : List Nat) :
      Reachable a → Reachable (a.reshape s).state
  | reshape_fill (a : MultiArray T) (s : List Nat) (v : T) :
      Reachable a → Reachable (a.reshape_fill s v).state
  | assign {T2 : Type} (convert : T2 → T) (a : MultiArray T) (other : MultiArray T2) :
      Reachable a → Reachable (a.assign convert other).state
  | get_write (a : MultiArray T) (coords : List Int) (v : T) :
      Reachable a → Reachable (a.get_write coords v).state

/-- Coordinates of the flat index `j` in an array of the given shape (row-major
order): the axis of size `d` followed by the axes `ds` gets the coordinate
`j / product(ds)`, and the remainder is decomposed along `ds`. -/
def unravel : List Nat → Nat → List Int
  | [], _ => []
  | _ :: ds, j => ((j / ds.prod : Nat) : Int) :: unravel ds (j % ds.prod)

/-- The full coordinate lists with `int` entries that `in_range` accepts. -/
def MultiArray.full_in_range {T : Type} (a : MultiArray T) (coords : List Int) : Prop :=
  (∀ z ∈ coords, INT_MIN ≤ z ∧ z ≤ INT_MAX) ∧ coords.length = a.num_dims ∧
    a.in_range coords = true

/-! ## Auxiliary lemmas -/

theorem fold_mod_lt (r : List Nat) : ∀ acc, acc < SIZE_MOD →
    r.foldl (fun acc x => acc * x % SIZE_MOD) acc < SIZE_MOD := by
  induction r with
  | nil => intro acc h; simpa using h
  | cons x xs ih =>
    intro acc _
    simp only [List.foldl_cons]
    exact ih _ (Nat.mod_lt _ (by decide))

theorem fold_mod_eq (r : List Nat) : ∀ acc,
    r.foldl (fun acc x => acc * x % SIZE_MOD) acc % SIZE_MOD = acc * r.prod % SIZE_MOD := by
  induction r with
  | nil => intro acc; simp
  | cons x xs ih =>
    intro acc
    simp only [List.foldl_cons, List.prod_cons]
    rw [ih, Nat.mod_mul_mod, Nat.mul_assoc]

/-- The helper `product` is the exact product reduced modulo `2 ^ 64`. -/
theorem product_eq (r : List Nat) : product r = r.prod % SIZE_MOD := by
  have h1 := fold_mod_lt r 1 (by decide)
  have h2 := fold_mod_eq r 1
  unfold product
  rw [← Nat.mod_eq_of_lt h1, h2, Nat.one_mul]

theorem length_vector_resize {α : Type} (v : List α) (n : Nat) (d : α) :
    (vector_resize v n d).length = n := by
  simp [vector_resize]
  omega

theorem strides_loop_spec (shape : List Nat) : ∀ (n : Nat) (st : List Nat),
    st.length = shape.length → n < shape.length →
    (∀ j, n ≤ j → j < shape.length → st[j]? = some ((shape.drop (j + 1)).prod % SIZE_MOD)) →
    (strides_loop shape n st).1 = none ∧ (strides_loop shape n st).2.length = shape.length ∧
    ∀ j, j < shape.length →
      (strides_loop shape n st).2[j]? = some ((shape.drop (j + 1)).prod % SIZE_MOD) := by
  intro n
  induction n with
  | zero =>
    intro st hl _ h
    refine ⟨rfl, hl, ?_⟩
    intro j hj
    exact h j (Nat.zero_le _) hj
  | succ i ih =>
    intro st hl hn h
    have h1 := h (i + 1) (Nat.le_refl _) hn
    have h2 : shape[i + 1]? = some shape[i + 1] := List.getElem?_eq_getElem hn
    have hi : i < st.length := by omega
    simp only [strides_loop, h1, h2, hi, if_true]
    apply ih
    · simp [hl]
    · omega
    · intro j hij hj
      by_cases hji : j = i
      · subst hji
        rw [List.getElem?_set_self hi]
        congr 1
        rw [List.drop_eq_getElem_cons hn, List.prod_cons, Nat.mod_mul_mod, Nat.mul_comm]
      · rw [List.getElem?_set_ne (Ne.symm hji)]
        exact h j (by omega) hj

theorem length_row_major (s : List Nat) : (row_major s).length = s.length := by
  induction s with
  | nil => rfl
  | cons d ds ih => simp [row_major, ih]

theorem getElem?_row_major (s : List Nat) : ∀ i, i < s.length →
    (row_major s)[i]? = some ((s.drop (i + 1)).prod % SIZE_MOD) := by
  induction s with
  | nil => intro i h; simp at h
  | cons d ds ih =>
    intro i h
    cases i with
    | zero => simp [row_major]
    | succ k =>
      simp only [row_major, List.getElem?_cons_succ, List.drop_succ_cons]
      exact ih k (by simpa using h)

theorem resize_data_spec {T : Type} [Inhabited T] (a : MultiArray T) (h : a.shape ≠ []) :
    a.resize_data = ⟨none, ⟨vector_resize a.data (product a.shape) default, a.shape,
      row_major a.shape⟩⟩ := by
  have hlen : 0 < a.shape.length := List.length_pos.mpr h
  have hne : (vector_resize a.strides a.shape.length 0).length ≠ 0 := by
    rw [length_vector_resize]; omega
  have hspec := strides_loop_spec a.shape (a.shape.length - 1)
    ((vector_resize a.strides a.shape.length 0).set
      ((vector_resize a.strides a.shape.length 0).length - 1) 1)
    (by simp [length_vector_resize]) (by omega)
    (by
      intro j h1 h2
      have hj : j = a.shape.length - 1 := by omega
      subst hj
      rw [length_vector_resize, List.getElem?_set_self (by rw [length_vector_resize]; omega)]
      have : a.shape.length - 1 + 1 = a.shape.length := by omega
      rw [this, List.drop_length]
      rfl)
  obtain ⟨h1, h2, h3⟩ := hspec
  simp only [MultiArray.resize_data, hne, if_false]
  congr 1
  congr 1
  apply List.ext_getElem?
  intro i
  by_cases hi : i < a.shape.length
  · rw [h3 i hi, getElem?_row_major _ i hi]
  · rw [List.getElem?_eq_none (by omega), List.getElem?_eq_none (by rw [length_row_major]; omega)]

theorem reshape_spec {T : Type} [Inhabited T] (a : MultiArray T) (s : List Nat) (hs : s ≠ []) :
    a.reshape s = ⟨none, ⟨vector_resize a.data (product s) default, s, row_major s⟩⟩ := by
  have hl : s.length ≠ 0 := by
    intro h; exact hs (List.length_eq_zero.mp h)
  simp only [MultiArray.reshape, hl, if_false]
  exact resize_data_spec ⟨a.data, s, a.strides⟩ hs

theorem to_size_t_of_nonneg (c : Int) (h0 : 0 ≤ c) (h1 : c ≤ INT_MAX) :
    ((to_size_t c : Nat) : Int) = c := by
  have hM : (SIZE_MOD : Int) = 18446744073709551616 := by simp [SIZE_MOD]
  have hI : INT_MAX = 2147483647 := by simp [INT_MAX]
  unfold to_size_t
  rw [hM]
  rw [hI] at h1
  omega

theorem in_range_loop_iff : ∀ (coords : List Int) (shape : List Nat),
    (∀ c ∈ coords, INT_MIN ≤ c ∧ c ≤ INT_MAX) → coords.length ≤ shape.length →
    (in_range_loop coords shape = true ↔
      ∀ (i : Nat) (c : Int) (d : Nat), coords[i]? = some c → shape[i]? = some d →
        0 ≤ c ∧ c < (d : Int)) := by
  intro coords
  induction coords with
  | nil => intro shape _ _; simp [in_range_loop]
  | cons c cs ih =>
    intro shape hint hlen
    cases shape with
    | nil => simp at hlen
    | cons d ds =>
      have hc := hint c (List.mem_cons_self _ _)
      have ih2 := ih ds (fun x hx => hint x (List.mem_cons_of_mem _ hx))
        (by simpa using hlen)
      by_cases hneg : c < 0
      · simp only [in_range_loop, hneg, true_or, if_true]
        constructor
        · intro h; cases h
        · intro h
          have := h 0 c d (by simp) (by simp)
          omega
      · have hconv := to_size_t_of_nonneg c (by omega) hc.2
        by_cases hge : to_size_t c ≥ d
        · simp only [in_range_loop, hge, or_true, if_true]
          constructor
          · intro h; cases h
          · intro h
            have := h 0 c d (by simp) (by simp)
            omega
        · have hcond : ¬ (c < 0 ∨ to_size_t c ≥ d) := by
            intro h; cases h <;> contradiction
          simp only [in_range_loop, hcond, if_false]
          rw [ih2]
          constructor
          · intro h i
            cases i with
            | zero =>
              intro c2 d2 e1 e2
              simp only [List.getElem?_cons_zero, Option.some.injEq] at e1 e2
              subst e1; subst e2
              omega
            | succ k =>
              intro c2 d2 e1 e2
              exact h k c2 d2 (by simpa using e1) (by simpa using e2)
          · intro h i c2 d2 e1 e2
            exact h (i + 1) c2 d2 (by simpa using e1) (by simpa using e2)

theorem to_size_t_cast (c : Int) : ((to_size_t c : Nat) : Int) = c % (SIZE_MOD : Int) := by
  unfold to_size_t
  exact Int.toNat_of_nonneg (Int.emod_nonneg c (by decide))

theorem ptr_add_mul (start c : Int) (st : Nat) :
    ptr_add start (to_size_t c * st % SIZE_MOD) = (start + c * (st : Int)) % (SIZE_MOD : Int) := by
  unfold ptr_add
  rw [Int.natCast_mod, Nat.cast_mul, to_size_t_cast, Int.add_emod_emod]
  have h : (c % (SIZE_MOD : Int) * (st : Int)) ≡ c * (st : Int) [ZMOD (SIZE_MOD : Int)] :=
    Int.ModEq.mul_right _ (Int.mod_modEq c _)
  exact Int.ModEq.add_left start h

theorem ptr_add_exact (p : Int) (n : Nat) (h0 : 0 ≤ p) (h1 : p + (n : Int) < (SIZE_MOD : Int)) :
    ptr_add p n = p + (n : Int) := by
  unfold ptr_add
  exact Int.emod_eq_of_lt (by omega) h1

theorem offset_loop_eq : ∀ (coords : List Int) (strides : List Nat) (start : Int),
    coords.length ≤ strides.length → start % (SIZE_MOD : Int) = start →
    offset_loop coords strides start
      = Except.ok ((start + flat_offset coords strides) % (SIZE_MOD : Int)) := by
  intro coords
  induction coords with
  | nil =>
    intro strides start _ hs
    simp [offset_loop, flat_offset, hs]
  | cons c cs ih =>
    intro strides start h hs
    cases strides with
    | nil => simp at h
    | cons st sts =>
      simp only [offset_loop]
      rw [ptr_add_mul, ih sts _ (by simpa using h) (Int.emod_emod_of_dvd _ (dvd_refl _))]
      congr 1
      rw [Int.emod_add_emod]
      simp [flat_offset, Int.add_assoc]

theorem op_index_const_eq {T : Type} (a : MultiArray T) (coords : List Int) :
    a.op_index_const coords = a.op_index coords := rfl

theorem get_const_eq {T : Type} (a : MultiArray T) (coords : List Int) :
    a.get_const coords = a.get coords := rfl

theorem op_index_nil {T : Type} (a : MultiArray T) :
    a.op_index [] = Except.ok ⟨Ptr.elem 0, Ptr.elem a.data.length⟩ := by
  simp [MultiArray.op_index]

theorem op_index_cons {T : Type} (a : MultiArray T) (coords : List Int) (hne : coords ≠ [])
    (hk : coords.length ≤ a.shape.length) (hst : a.strides.length = a.shape.length) :
    ∃ w, a.strides[coords.length - 1]? = some w ∧
      a.op_index coords
        = Except.ok ⟨Ptr.elem (flat_offset coords a.strides % (SIZE_MOD : Int)),
            Ptr.elem (ptr_add (flat_offset coords a.strides % (SIZE_MOD : Int)) w)⟩ := by
  have hpos : 0 < coords.length := List.length_pos.mpr hne
  have hlt : coords.length - 1 < a.strides.length := by omega
  refine ⟨a.strides[coords.length - 1], List.getElem?_eq_getElem hlt, ?_⟩
  have hnot : ¬ ¬ coords.length ≤ a.shape.length := by simpa using hk
  have hemp : coords.isEmpty = false := by
    cases coords with
    | nil => exact absurd rfl hne
    | cons c cs => rfl
  simp only [MultiArray.op_index, hnot, if_false, hemp, Bool.false_eq_true]
  rw [offset_loop_eq coords a.strides 0 (by omega) (by decide), List.getElem?_eq_getElem hlt]
  simp

theorem op_index_exact {T : Type} (a : MultiArray T) (coords : List Int) (hne : coords ≠ [])
    (hk : coords.length ≤ a.shape.length) (hst : a.strides.length = a.shape.length)
    (w : Nat) (hw : a.strides[coords.length - 1]? = some w)
    (h0 : 0 ≤ flat_offset coords a.strides)
    (h1 : flat_offset coords a.strides + (w : Int) < (SIZE_MOD : Int)) :
    a.op_index coords
      = Except.ok ⟨Ptr.elem (flat_offset coords a.strides),
          Ptr.elem (flat_offset coords a.strides + (w : Int))⟩ := by
  obtain ⟨w2, hw2, hop⟩ := op_index_cons a coords hne hk hst
  rw [hw] at hw2
  cases hw2
  have hw0 : (0 : Int) ≤ (w : Int) := Int.ofNat_nonneg _
  rw [hop, Int.emod_eq_of_lt h0 (by omega), ptr_add_exact _ _ h0 h1]

theorem op_index_too_long {T : Type} (a : MultiArray T) (coords : List Int)
    (hk : a.shape.length < coords.length) : a.op_index coords = Except.error Fault.check := by
  have : ¬ coords.length ≤ a.shape.length := by omega
  simp [MultiArray.op_index, this]

theorem flat_offset_cons (c : Int) (cs : List Int) (w : Nat) (ws : List Nat) :
    flat_offset (c :: cs) (w :: ws) = c * (w : Int) + flat_offset cs ws := by
  simp [flat_offset]

theorem flat_offset_nil (ws : List Nat) : flat_offset [] ws = 0 := by
  simp [flat_offset]

theorem in_range_loop_cons (c : Int) (cs : List Int) (d : Nat) (ds : List Nat)
    (hc : INT_MIN ≤ c ∧ c ≤ INT_MAX) (h : in_range_loop (c :: cs) (d :: ds) = true) :
    0 ≤ c ∧ c < (d : Int) ∧ in_range_loop cs ds = true := by
  by_cases hneg : c < 0
  · simp [in_range_loop, hneg] at h
  · have hconv := to_size_t_of_nonneg c (by omega) hc.2
    by_cases hge : to_size_t c ≥ d
    · simp [in_range_loop, hge] at h
    · have hcond : ¬ (c < 0 ∨ to_size_t c ≥ d) := by
        intro h; cases h <;> contradiction
      simp only [in_range_loop, hcond, if_false] at h
      exact ⟨by omega, by omega, h⟩

theorem prod_tail_lt (d : Nat) (ds : List Nat) (hd : 0 < d)
    (h : (d :: ds).prod < SIZE_MOD) : ds.prod < SIZE_MOD := by
  rw [List.prod_cons] at h
  exact lt_of_le_of_lt (Nat.le_mul_of_pos_left _ hd) h

theorem offset_bounds : ∀ (s : List Nat) (x : List Int), x.length = s.length →
    (∀ c ∈ x, INT_MIN ≤ c ∧ c ≤ INT_MAX) → in_range_loop x s = true → s.prod < SIZE_MOD →
    0 ≤ flat_offset x (row_major s) ∧ flat_offset x (row_major s) < (s.prod : Int) := by
  intro s
  induction s with
  | nil =>
    intro x hl _ _ _
    have : x = [] := List.length_eq_zero.mp hl
    subst this
    simp [flat_offset, row_major]
  | cons d ds ih =>
    intro x hl hint hin hprod
    cases x with
    | nil => simp at hl
    | cons x0 xs =>
      obtain ⟨h0, h1, h2⟩ := in_range_loop_cons x0 xs d ds (hint x0 (List.mem_cons_self _ _)) hin
      have hd : 0 < d := by omega
      have hP := prod_tail_lt d ds hd hprod
      obtain ⟨r0, r1⟩ := ih xs (by simpa using hl)
        (fun c hc => hint c (List.mem_cons_of_mem _ hc)) h2 hP
      simp only [row_major, Nat.mod_eq_of_lt hP, flat_offset_cons, List.prod_cons, Nat.cast_mul]
      have hPn : (0 : Int) ≤ (ds.prod : Int) := Int.ofNat_nonneg _
      have hm : (x0 + 1) * (ds.prod : Int) ≤ (d : Int) * (ds.prod : Int) :=
        Int.mul_le_mul_of_nonneg_right (by omega) hPn
      have hx : 0 ≤ x0 * (ds.prod : Int) := Int.mul_nonneg h0 hPn
      constructor
      · omega
      · have : (x0 + 1) * (ds.prod : Int) = x0 * (ds.prod : Int) + (ds.prod : Int) := by ring
        omega

theorem slab_iff : ∀ (s : List Nat) (c x : List Int), s.prod < SIZE_MOD → c ≠ [] →
    c.length ≤ s.length → x.length = s.length →
    (∀ z ∈ c, INT_MIN ≤ z ∧ z ≤ INT_MAX) → (∀ z ∈ x, INT_MIN ≤ z ∧ z ≤ INT_MAX) →
    in_range_loop c s = true → in_range_loop x s = true →
    ∃ w : Nat, (row_major s)[c.length - 1]? = some w ∧
      0 ≤ flat_offset c (row_major s) ∧
      flat_offset c (row_major s) + (w : Int) ≤ (s.prod : Int) ∧
      ((flat_offset c (row_major s) ≤ flat_offset x (row_major s) ∧
          flat_offset x (row_major s) < flat_offset c (row_major s) + (w : Int))
        ↔ x.take c.length = c) := by
  intro s
  induction s with
  | nil =>
    intro c x _ hne hl _ _ _ _ _
    have : c = [] := List.length_eq_zero.mp (Nat.le_zero.mp hl)
    exact absurd this hne
  | cons d ds ih =>
    intro c x hprod hne hlc hlx hintc hintx hinc hinx
    cases c with
    | nil => exact absurd rfl hne
    | cons c0 cs =>
    cases x with
    | nil => simp at hlx
    | cons x0 xs =>
      obtain ⟨hc0, hc1, hc2⟩ :=
        in_range_loop_cons c0 cs d ds (hintc c0 (List.mem_cons_self _ _)) hinc
      obtain ⟨hx0, hx1, hx2⟩ :=
        in_range_loop_cons x0 xs d ds (hintx x0 (List.mem_cons_self _ _)) hinx
      have hd : 0 < d := by omega
      have hP := prod_tail_lt d ds hd hprod
      obtain ⟨r0, r1⟩ := offset_bounds ds xs (by simpa using hlx)
        (fun z hz => hintx z (List.mem_cons_of_mem _ hz)) hx2 hP
      have hPn : (0 : Int) ≤ (ds.prod : Int) := Int.ofNat_nonneg _
      have hcd : (c0 + 1) * (ds.prod : Int) ≤ (d : Int) * (ds.prod : Int) :=
        Int.mul_le_mul_of_nonneg_right (by omega) hPn
      have hcn : 0 ≤ c0 * (ds.prod : Int) := Int.mul_nonneg hc0 hPn
      have e1 : (c0 + 1) * (ds.prod : Int) = c0 * (ds.prod : Int) + (ds.prod : Int) := by ring
      have e2 : (x0 + 1) * (ds.prod : Int) = x0 * (ds.prod : Int) + (ds.prod : Int) := by ring
      have hlow : x0 < c0 → (x0 + 1) * (ds.prod : Int) ≤ c0 * (ds.prod : Int) := fun h =>
        Int.mul_le_mul_of_nonneg_right (by omega) hPn
      have hhigh : c0 < x0 → (c0 + 1) * (ds.prod : Int) ≤ x0 * (ds.prod : Int) := fun h =>
        Int.mul_le_mul_of_nonneg_right (by omega) hPn
      by_cases hcs : cs = []
      · subst hcs
        refine ⟨ds.prod, by simp [row_major, Nat.mod_eq_of_lt hP], ?_, ?_, ?_⟩
        · simp only [row_major, Nat.mod_eq_of_lt hP, flat_offset_cons, flat_offset_nil]
          omega
        · simp only [row_major, Nat.mod_eq_of_lt hP, flat_offset_cons, flat_offset_nil,
            List.prod_cons, Nat.cast_mul]
          omega
        · simp only [row_major, Nat.mod_eq_of_lt hP, flat_offset_cons, flat_offset_nil,
            List.length_singleton, List.take_succ_cons, List.take_zero, List.cons.injEq, and_true]
          constructor
          · intro ⟨ha, hb⟩
            by_contra hne2
            rcases lt_or_gt_of_ne hne2 with h | h
            · have := hlow h; omega
            · have := hhigh h; omega
          · intro h
            subst h
            omega
      · obtain ⟨w, hw, hs0, hs1, hiff⟩ := ih cs xs hP hcs (by simpa using hlc)
          (by simpa using hlx) (fun z hz => hintc z (List.mem_cons_of_mem _ hz))
          (fun z hz => hintx z (List.mem_cons_of_mem _ hz)) hc2 hx2
        have hpos : 0 < cs.length := List.length_pos.mpr hcs
        refine ⟨w, ?_, ?_, ?_, ?_⟩
        · have : (c0 :: cs).length - 1 = (cs.length - 1) + 1 := by simp; omega
          rw [this]
          simpa [row_major] using hw
        · simp only [row_major, Nat.mod_eq_of_lt hP, flat_offset_cons]
          omega
        · simp only [row_major, Nat.mod_eq_of_lt hP, flat_offset_cons, List.prod_cons,
            Nat.cast_mul]
          omega
        · simp only [row_major, Nat.mod_eq_of_lt hP, flat_offset_cons, List.length_cons,
            List.take_succ_cons, List.cons.injEq]
          rw [← hiff]
          have hw0 : (0 : Int) ≤ (w : Int) := Int.ofNat_nonneg _
          constructor
          · intro ⟨ha, hb⟩
            have hx : x0 = c0 := by
              by_contra hne2
              rcases lt_or_gt_of_ne hne2 with h | h
              · have := hlow h; omega
              · have := hhigh h; omega
            subst hx
            exact ⟨rfl, by omega, by omega⟩
          · intro ⟨hx, ha, hb⟩
            subst hx
            exact ⟨by omega, by omega⟩

theorem in_range_length {T : Type} (a : MultiArray T) (coords : List Int)
    (h : a.in_range coords = true) : coords.length ≤ a.shape.length := by
  by_cases hlen : coords.length > a.shape.length
  · simp [MultiArray.in_range, hlen] at h
  · omega

theorem in_range_loop_of_in_range {T : Type} (a : MultiArray T) (coords : List Int)
    (h : a.in_range coords = true) : in_range_loop coords a.shape = true := by
  by_cases hlen : coords.length > a.shape.length
  · simp [MultiArray.in_range, hlen] at h
  · simpa [MultiArray.in_range, hlen] using h

theorem at_returns_view {T : Type} (a : MultiArray T) (hst : a.strides.length = a.shape.length)
    (coords : List Int) :
    ∃ v, a.at_ coords = Except.ok v ∧ a.at_const coords = Except.ok v := by
  by_cases hin : a.in_range coords = true
  · have hk := in_range_length a coords hin
    by_cases hnil : coords = []
    · subst hnil
      refine ⟨⟨Ptr.elem 0, Ptr.elem a.data.length⟩, ?_, ?_⟩
      · simp only [MultiArray.at_, hin, if_true]
        exact op_index_nil a
      · simp only [MultiArray.at_const, hin, if_true]
        exact op_index_nil a
    · obtain ⟨w, _, hop⟩ := op_index_cons a coords hnil hk hst
      refine ⟨⟨Ptr.elem (flat_offset coords a.strides % (SIZE_MOD : Int)),
        Ptr.elem (ptr_add (flat_offset coords a.strides % (SIZE_MOD : Int)) w)⟩, ?_, ?_⟩
      · simp only [MultiArray.at_, hin, if_true]
        exact hop
      · simp only [MultiArray.at_const, hin, if_true]
        exact hop
  · have hf : a.in_range coords = false := by simpa using hin
    refine ⟨View.nullView, ?_, ?_⟩
    · simp [MultiArray.at_, hf]
    · simp [MultiArray.at_const, hf]

theorem reshape_fill_spec {T : Type} [Inhabited T] (a : MultiArray T) (s : List Nat)
    (hs : s ≠ []) (fillval : T) :
    a.reshape_fill s fillval
      = ⟨none, ⟨(vector_resize a.data (product s) default).map (fun _ => fillval), s,
          row_major s⟩⟩ := by
  simp only [MultiArray.reshape_fill, reshape_spec a s hs]

theorem reshape_invariant {T : Type} [Inhabited T] (a : MultiArray T) (s : List Nat)
    (hs : s ≠ []) : (a.reshape s).fault = none ∧ (a.reshape s).state.invariant := by
  rw [reshape_spec a s hs]
  refine ⟨rfl, ?_, ?_⟩
  · simp [length_vector_resize, product_eq]
  · exact length_row_major s

theorem reshape_fill_invariant {T : Type} [Inhabited T] (a : MultiArray T) (s : List Nat)
    (hs : s ≠ []) (fillval : T) :
    (a.reshape_fill s fillval).fault = none ∧ (a.reshape_fill s fillval).state.invariant := by
  rw [reshape_fill_spec a s hs]
  refine ⟨rfl, ?_, ?_⟩
  · simp [length_vector_resize, product_eq]
  · exact length_row_major s

theorem assign_eq {T T2 : Type} [Inhabited T] (convert : T2 → T) (self : MultiArray T)
    (other : MultiArray T2) (hshape : other.shape ≠ [])
    (hdata : other.data.length ≤ product other.shape) :
    self.assign convert other
      = ⟨none, ⟨other.data.map convert
          ++ (vector_resize self.data (product other.shape) default).drop other.data.length,
          other.shape, row_major other.shape⟩⟩ := by
  have hle : other.data.length
      ≤ (vector_resize self.data (product other.shape) default).length := by
    rw [length_vector_resize]; exact hdata
  simp only [MultiArray.assign, reshape_spec self other.shape hshape, hle, if_true]

theorem assign_spec {T T2 : Type} [Inhabited T] (convert : T2 → T) (self : MultiArray T)
    (other : MultiArray T2) (hshape : other.shape ≠ [])
    (hdata : other.data.length ≤ product other.shape) :
    (self.assign convert other).fault = none ∧
    (self.assign convert other).state.shape = other.shape ∧
    (self.assign convert other).state.data.length = product other.shape ∧
    (∀ (j : Nat) (y : T2), other.data[j]? = some y →
      (self.assign convert other).state.data[j]? = some (convert y)) := by
  rw [assign_eq convert self other hshape hdata]
  refine ⟨rfl, rfl, ?_, ?_⟩
  · simp [length_vector_resize]
    omega
  · intro j y hy
    have hj : j < other.data.length := by
      by_contra hcon
      rw [List.getElem?_eq_none (by omega)] at hy
      cases hy
    simp only
    rw [List.getElem?_append_left (by simpa using hj)]
    simp [hy]

theorem assign_strides {T T2 : Type} [Inhabited T] (convert : T2 → T) (self : MultiArray T)
    (other : MultiArray T2) (hshape : other.shape ≠ [])
    (hdata : other.data.length ≤ product other.shape) :
    (self.assign convert other).state.strides = row_major other.shape := by
  rw [assign_eq convert self other hshape hdata]

theorem get_write_frame {T : Type} (a : MultiArray T) (coords : List Int) (x : T) :
    (a.get_write coords x).state.data.length = a.data.length ∧
    (a.get_write coords x).state.shape = a.shape ∧
    (a.get_write coords x).state.strides = a.strides := by
  unfold MultiArray.get_write
  split
  · exact ⟨rfl, rfl, rfl⟩
  · split
    · exact ⟨rfl, rfl, rfl⟩
    · rename_i v _
      split
      · rename_i d hd
        refine ⟨?_, rfl, rfl⟩
        cases hv : v.start with
        | null => rw [hv] at hd; simp [store] at hd
        | elem off =>
          rw [hv] at hd
          simp only [store] at hd
          split at hd
          · cases hd
            simp
          · cases hd
      · exact ⟨rfl, rfl, rfl⟩

theorem offset_loop_fault : ∀ (coords : List Int) (strides : List Nat) (start : Int)
    (f : Fault), offset_loop coords strides start = Except.error f → f = Fault.undefined := by
  intro coords
  induction coords with
  | nil => intro strides start f h; simp [offset_loop] at h
  | cons c cs ih =>
    intro strides start f h
    cases strides with
    | nil =>
      simp only [offset_loop] at h
      cases h
      rfl
    | cons st sts =>
      simp only [offset_loop] at h
      exact ih sts _ f h

theorem op_index_fault {T : Type} (a : MultiArray T) (coords : List Int)
    (hk : coords.length ≤ a.shape.length) (f : Fault)
    (h : a.op_index coords = Except.error f) : f = Fault.undefined := by
  have hnot : ¬ ¬ coords.length ≤ a.shape.length := by simpa using hk
  simp only [MultiArray.op_index, hnot, if_false] at h
  split at h
  · cases h
  · split at h
    · rename_i g hg
      cases h
      exact offset_loop_fault coords a.strides 0 f hg
    · split at h
      · cases h
        rfl
      · cases h

theorem deref_fault {T : Type} (data : List T) (p : Ptr) (f : Fault)
    (h : deref data p = Except.error f) : f = Fault.undefined := by
  cases p with
  | null =>
    simp only [deref] at h
    cases h
    rfl
  | elem off =>
    simp only [deref] at h
    split at h
    · split at h
      · cases h
      · cases h
        rfl
    · cases h
      rfl

theorem get_fault {T : Type} (a : MultiArray T) (coords : List Int)
    (hk : coords.length = a.shape.length) (f : Fault)
    (h : a.get coords = Except.error f) : f = Fault.undefined := by
  have hnot : ¬ coords.length ≠ a.shape.length := by simpa using hk
  simp only [MultiArray.get, hnot, if_false] at h
  split at h
  · rename_i g hg
    cases h
    exact op_index_fault a coords (by omega) f hg
  · exact deref_fault _ _ f h

theorem get_write_fault {T : Type} (a : MultiArray T) (coords : List Int) (x : T)
    (hk : coords.length = a.shape.length) (f : Fault)
    (h : (a.get_write coords x).fault = some f) : f = Fault.undefined := by
  have hnot : ¬ coords.length ≠ a.shape.length := by simpa using hk
  simp only [MultiArray.get_write, hnot, if_false] at h
  split at h
  · rename_i g hg
    cases h
    exact op_index_fault a coords (by omega) f hg
  · split at h
    · cases h
    · cases h
      rfl

theorem get_eq_deref {T : Type} (a : MultiArray T) (coords : List Int) (hne : coords ≠ [])
    (hk : coords.length = a.shape.length) (hst : a.strides.length = a.shape.length) :
    a.get coords
      = deref a.data (Ptr.elem (flat_offset coords a.strides % (SIZE_MOD : Int))) := by
  obtain ⟨w, _, hw⟩ := op_index_cons a coords hne (by omega) hst
  have hnot : ¬ coords.length ≠ a.shape.length := by simpa using hk
  simp only [MultiArray.get, hnot, if_false, hw]

theorem get_write_eq {T : Type} (a : MultiArray T) (coords : List Int) (x : T)
    (hne : coords ≠ []) (hk : coords.length = a.shape.length)
    (hst : a.strides.length = a.shape.length) :
    a.get_write coords x
      = match store a.data x
          (Ptr.elem (flat_offset coords a.strides % (SIZE_MOD : Int))) with
        | some d => ⟨none, { a with data := d }⟩
        | none => ⟨some Fault.undefined, a⟩ := by
  obtain ⟨w, _, hw⟩ := op_index_cons a coords hne (by omega) hst
  have hnot : ¬ coords.length ≠ a.shape.length := by simpa using hk
  simp only [MultiArray.get_write, hnot, if_false, hw]

theorem get_write_in_buffer {T : Type} (a : MultiArray T) (coords : List Int) (x : T)
    (hne : coords ≠ []) (hk : coords.length = a.shape.length)
    (hst : a.strides.length = a.shape.length) (j : Nat)
    (hj : flat_offset coords a.strides = (j : Int)) (hjM : j < SIZE_MOD)
    (hlt : j < a.data.length) :
    a.get_write coords x = ⟨none, { a with data := a.data.set j x }⟩ := by
  have hmod : (j : Int) % (SIZE_MOD : Int) = (j : Int) :=
    Int.emod_eq_of_lt (Int.ofNat_nonneg j) (by exact_mod_cast hjM)
  rw [get_write_eq a coords x hne hk hst, hj, hmod]
  have h0 : (0 : Int) ≤ (j : Int) := Int.ofNat_nonneg j
  simp [store, hlt]

theorem get_in_buffer {T : Type} (a : MultiArray T) (coords : List Int)
    (hne : coords ≠ []) (hk : coords.length = a.shape.length)
    (hst : a.strides.length = a.shape.length) (j : Nat)
    (hj : flat_offset coords a.strides = (j : Int)) (hjM : j < SIZE_MOD) :
    a.get coords = match a.data[j]? with
      | some y => Except.ok y
      | none => Except.error Fault.undefined := by
  have hmod : (j : Int) % (SIZE_MOD : Int) = (j : Int) :=
    Int.emod_eq_of_lt (Int.ofNat_nonneg j) (by exact_mod_cast hjM)
  rw [get_eq_deref a coords hne hk hst, hj, hmod]
  simp [deref]

theorem getElem?_vector_resize_old {α : Type} (v : List α) (n : Nat) (d : α) (j : Nat)
    (h1 : j < v.length) (h2 : j < n) : (vector_resize v n d)[j]? = v[j]? := by
  unfold vector_resize
  rw [List.getElem?_append_left (by simp; omega)]
  rw [List.getElem?_take_of_lt h2]

theorem getElem?_vector_resize_new {α : Type} (v : List α) (n : Nat) (d : α) (j : Nat)
    (h1 : v.length ≤ j) (h2 : j < n) : (vector_resize v n d)[j]? = some d := by
  unfold vector_resize
  have hl : (v.take n).length = v.length := by simp; omega
  rw [List.getElem?_append_right (by omega), hl]
  rw [List.getElem?_replicate]
  have : j - v.length < n - v.length := by omega
  simp [this]

theorem reshape_strides_or_same {T : Type} [Inhabited T] (a : MultiArray T) (s : List Nat)
    (h : a.strides = row_major a.shape) :
    (a.reshape s).state.strides = row_major (a.reshape s).state.shape := by
  by_cases hs : s = []
  · subst hs
    simpa [MultiArray.reshape] using h
  · rw [reshape_spec a s hs]

theorem reachable_strides {T : Type} [Inhabited T] (a : MultiArray T) (h : Reachable a) :
    a.strides = row_major a.shape := by
  induction h with
  | init => rfl
  | reshape a s _ ih => exact reshape_strides_or_same a s ih
  | reshape_fill a s v _ ih =>
    by_cases hs : s = []
    · subst hs
      simpa [MultiArray.reshape_fill, MultiArray.reshape] using ih
    · rw [reshape_fill_spec a s hs v]
  | assign convert a other _ ih =>
    have hr := reshape_strides_or_same a other.shape ih
    unfold MultiArray.assign
    simp only
    split
    · exact hr
    · split
      · exact hr
      · exact hr
  | get_write a coords v _ ih =>
    obtain ⟨_, g2, g3⟩ := get_write_frame a coords v
    rw [g2, g3]
    exact ih

theorem prefix_bounds : ∀ (s : List Nat) (c : List Int), s.prod < SIZE_MOD → c ≠ [] →
    c.length ≤ s.length → (∀ z ∈ c, INT_MIN ≤ z ∧ z ≤ INT_MAX) →
    in_range_loop c s = true →
    ∃ w : Nat, (row_major s)[c.length - 1]? = some w ∧
      0 ≤ flat_offset c (row_major s) ∧
      flat_offset c (row_major s) + (w : Int) ≤ (s.prod : Int) := by
  intro s
  induction s with
  | nil =>
    intro c _ hne hl _ _
    have : c = [] := List.length_eq_zero.mp (Nat.le_zero.mp hl)
    exact absurd this hne
  | cons d ds ih =>
    intro c hprod hne hlc hintc hinc
    cases c with
    | nil => exact absurd rfl hne
    | cons c0 cs =>
      obtain ⟨hc0, hc1, hc2⟩ :=
        in_range_loop_cons c0 cs d ds (hintc c0 (List.mem_cons_self _ _)) hinc
      have hd : 0 < d := by omega
      have hP := prod_tail_lt d ds hd hprod
      have hPn : (0 : Int) ≤ (ds.prod : Int) := Int.ofNat_nonneg _
      have hcd : (c0 + 1) * (ds.prod : Int) ≤ (d : Int) * (ds.prod : Int) :=
        Int.mul_le_mul_of_nonneg_right (by omega) hPn
      have hcn : 0 ≤ c0 * (ds.prod : Int) := Int.mul_nonneg hc0 hPn
      have e1 : (c0 + 1) * (ds.prod : Int) = c0 * (ds.prod : Int) + (ds.prod : Int) := by ring
      by_cases hcs : cs = []
      · subst hcs
        refine ⟨ds.prod, by simp [row_major, Nat.mod_eq_of_lt hP], ?_, ?_⟩
        · simp only [row_major, Nat.mod_eq_of_lt hP, flat_offset_cons, flat_offset_nil]
          omega
        · simp only [row_major, Nat.mod_eq_of_lt hP, flat_offset_cons, flat_offset_nil,
            List.prod_cons, Nat.cast_mul]
          omega
      · obtain ⟨w, hw, hs0, hs1⟩ := ih cs hP hcs (by simpa using hlc)
          (fun z hz => hintc z (List.mem_cons_of_mem _ hz)) hc2
        have hpos : 0 < cs.length := List.length_pos.mpr hcs
        refine ⟨w, ?_, ?_, ?_⟩
        · have : (c0 :: cs).length - 1 = (cs.length - 1) + 1 := by simp; omega
          rw [this]
          simpa [row_major] using hw
        · simp only [row_major, Nat.mod_eq_of_lt hP, flat_offset_cons]
          omega
        · simp only [row_major, Nat.mod_eq_of_lt hP, flat_offset_cons, List.prod_cons,
            Nat.cast_mul]
          omega

theorem row_major_last (s : List Nat) (hs : s ≠ []) :
    (row_major s)[s.length - 1]? = some 1 := by
  have hl : 0 < s.length := List.length_pos.mpr hs
  rw [getElem?_row_major s (s.length - 1) (by omega)]
  have : s.length - 1 + 1 = s.length := by omega
  rw [this, List.drop_length]
  rfl

theorem length_unravel (s : List Nat) : ∀ j, (unravel s j).length = s.length := by
  induction s with
  | nil => intro j; rfl
  | cons d ds ih => intro j; simp [unravel, ih]

theorem unravel_spec : ∀ (s : List Nat) (j : Nat), s.prod < SIZE_MOD →
    (∀ d ∈ s, d ≤ 2 ^ 31) → j < s.prod →
    (∀ z ∈ unravel s j, INT_MIN ≤ z ∧ z ≤ INT_MAX) ∧
    in_range_loop (unravel s j) s = true ∧
    flat_offset (unravel s j) (row_major s) = (j : Int) := by
  intro s
  induction s with
  | nil =>
    intro j _ _ hj
    simp only [List.prod_nil] at hj
    have : j = 0 := by omega
    subst this
    simp [unravel, in_range_loop, flat_offset]
  | cons d ds ih =>
    intro j hprod hdim hj
    have hd31 : d ≤ 2 ^ 31 := hdim d (List.mem_cons_self _ _)
    rw [List.prod_cons] at hj
    have hPpos : 0 < ds.prod := by
      rcases Nat.eq_zero_or_pos ds.prod with h | h
      · rw [h] at hj; simp at hj
      · exact h
    have hdpos : 0 < d := by
      rcases Nat.eq_zero_or_pos d with h | h
      · rw [h] at hj; simp at hj
      · exact h
    have hP := prod_tail_lt d ds hdpos hprod
    have hq : j / ds.prod < d := Nat.div_lt_of_lt_mul (by rw [Nat.mul_comm]; exact hj)
    have hr : j % ds.prod < ds.prod := Nat.mod_lt _ hPpos
    obtain ⟨i1, i2, i3⟩ := ih (j % ds.prod) hP
      (fun x hx => hdim x (List.mem_cons_of_mem _ hx)) hr
    have hqI : INT_MIN ≤ ((j / ds.prod : Nat) : Int) ∧ ((j / ds.prod : Nat) : Int) ≤ INT_MAX := by
      have hI : INT_MAX = 2147483647 := by simp [INT_MAX]
      have hm : INT_MIN = -2147483648 := by simp [INT_MIN]
      rw [hI, hm]
      have h31 : (2 : Nat) ^ 31 = 2147483648 := by norm_num
      have hq2 : ((j / ds.prod : Nat) : Int) < (d : Int) := by exact_mod_cast hq
      have hq0 : (0 : Int) ≤ ((j / ds.prod : Nat) : Int) := Int.ofNat_nonneg _
      have hd2 : (d : Int) ≤ 2147483648 := by
        rw [h31] at hd31
        exact_mod_cast hd31
      constructor
      · linarith
      · linarith
    refine ⟨?_, ?_, ?_⟩
    · intro z hz
      simp only [unravel, List.mem_cons] at hz
      rcases hz with h | h
      · rw [h]; exact hqI
      · exact i1 z h
    · have hconv := to_size_t_of_nonneg ((j / ds.prod : Nat) : Int) (Int.ofNat_nonneg _) hqI.2
      have hcond : ¬ (((j / ds.prod : Nat) : Int) < 0 ∨
          to_size_t ((j / ds.prod : Nat) : Int) ≥ d) := by
        intro h
        rcases h with h | h
        · have hq0 : (0 : Int) ≤ ((j / ds.prod : Nat) : Int) := Int.ofNat_nonneg _
          linarith
        · have h3 : ((to_size_t ((j / ds.prod : Nat) : Int) : Nat) : Int) ≥ (d : Int) := by
            exact_mod_cast h
          rw [hconv] at h3
          have hq2 : ((j / ds.prod : Nat) : Int) < (d : Int) := by exact_mod_cast hq
          linarith
      simp only [unravel, in_range_loop, hcond, if_false]
      exact i2
    · simp only [unravel, row_major, Nat.mod_eq_of_lt hP, flat_offset_cons, i3]
      have h2 : ((ds.prod * (j / ds.prod) + j % ds.prod : Nat) : Int) = (j : Int) := by
        rw [Nat.div_add_mod j ds.prod]
      rw [Nat.cast_add, Nat.cast_mul] at h2
      rw [← h2]
      ring

theorem offset_injective (s : List Nat) (hprod : s.prod < SIZE_MOD) (x y : List Int)
    (hxl : x.length = s.length) (hyl : y.length = s.length)
    (hintx : ∀ z ∈ x, INT_MIN ≤ z ∧ z ≤ INT_MAX) (hinty : ∀ z ∈ y, INT_MIN ≤ z ∧ z ≤ INT_MAX)
    (hx : in_range_loop x s = true) (hy : in_range_loop y s = true)
    (heq : flat_offset x (row_major s) = flat_offset y (row_major s)) : x = y := by
  by_cases hs : s = []
  · subst hs
    have h1 : x = [] := List.length_eq_zero.mp hxl
    have h2 : y = [] := List.length_eq_zero.mp hyl
    rw [h1, h2]
  · have hyne : y ≠ [] := by
      intro h
      rw [h] at hyl
      exact hs (List.length_eq_zero.mp hyl.symm)
    obtain ⟨w, hw, _, _, hiff⟩ := slab_iff s y x hprod hyne (by omega) hxl hinty hintx hy hx
    rw [hyl, row_major_last s hs] at hw
    cases hw
    have := hiff.mp ⟨by omega, by simp only [Nat.cast_one]; omega⟩
    rw [hyl, ← hxl, List.take_length] at this
    exact this

theorem reshape_size_lt {T : Type} [Inhabited T] (a0 : MultiArray T) (s : List Nat)
    (hs : s ≠ []) : (a0.reshape s).state.data.length < SIZE_MOD := by
  rw [reshape_spec a0 s hs]
  simp only [length_vector_resize, product_eq]
  exact Nat.mod_lt _ (by decide)

theorem reshape_strides_length {T : Type} [Inhabited T] (a0 : MultiArray T) (s : List Nat)
    (hs : s ≠ []) :
    (a0.reshape s).state.strides.length = (a0.reshape s).state.shape.length ∧
    (a0.reshape s).state.shape = s := by
  rw [reshape_spec a0 s hs]
  exact ⟨length_row_major s, rfl⟩

theorem bool_ne_int : Bool ≠ Int := by
  intro h
  have h2 : Nat.card Bool = Nat.card Int := by rw [h]
  simp at h2

/-! ## Claims -/

/-- C1 (as amended).  For every non-empty shape `s` and every prior array state,
`reshape(s)` returns normally and afterwards `size()` is the product of `s`
reduced modulo `2 ^ 64`, `num_dims()` is `len(s)`, `strides` has one entry per
axis, and for every axis `i` the entry `strides[i]` is the product of `s[i+1:]`
reduced modulo `2 ^ 64` (so the last stride is `1`); the products are exact
whenever they are below `2 ^ 64`. -/
theorem reshape_size_dims_strides {T : Type} [Inhabited T] (a : MultiArray T) (s : List Nat)
    (hs : s ≠ []) :
    (a.reshape s).fault = none ∧
    (a.reshape s).state.size = s.prod % SIZE_MOD ∧
    (s.prod < SIZE_MOD → (a.reshape s).state.size = s.prod) ∧
    (a.reshape s).state.num_dims = s.length ∧
    (a.reshape s).state.strides.length = s.length ∧
    (∀ i, i < s.length →
      (a.reshape s).state.strides[i]? = some ((s.drop (i + 1)).prod % SIZE_MOD)) ∧
    (∀ i, i < s.length → (s.drop (i + 1)).prod < SIZE_MOD →
      (a.reshape s).state.strides[i]? = some ((s.drop (i + 1)).prod)) ∧
    (a.reshape s).state.strides[s.length - 1]? = some 1 := by
  have hl : 0 < s.length := List.length_pos.mpr hs
  have hsz : (a.reshape s).state.size = s.prod % SIZE_MOD := by
    rw [reshape_spec a s hs]
    simp [MultiArray.size, length_vector_resize, product_eq]
  have hst : ∀ i, i < s.length →
      (a.reshape s).state.strides[i]? = some ((s.drop (i + 1)).prod % SIZE_MOD) := by
    intro i hi
    rw [reshape_spec a s hs]
    exact getElem?_row_major s i hi
  refine ⟨?_, hsz, ?_, ?_, ?_, hst, ?_, ?_⟩
  · rw [reshape_spec a s hs]
  · intro h
    rw [hsz, Nat.mod_eq_of_lt h]
  · rw [reshape_spec a s hs]
    rfl
  · rw [reshape_spec a s hs]
    exact length_row_major s
  · intro i hi h
    rw [hst i hi, Nat.mod_eq_of_lt h]
  · rw [hst (s.length - 1) (by omega)]
    have : s.length - 1 + 1 = s.length := by omega
    rw [this, List.drop_length]
    rfl

/-- C1, witness: the shapes `[2,3]` and `[0,4]` of the claim. -/
theorem reshape_size_dims_strides_witness :
    (([2, 3] : List Nat) ≠ [] ∧
      ((MultiArray.empty_array Int).reshape [2, 3]).state.strides = [3, 1]) ∧
    ((MultiArray.empty_array Int).reshape [0, 4]).state.size = 0 ∧
    ((MultiArray.empty_array Int).reshape [0, 4]).state.strides = [4, 1] ∧
    ((MultiArray.empty_array Int).reshape [2, 3]).state.size = 6 :=
  ⟨⟨by decide, by decide⟩, by decide, by decide,
    ((reshape_size_dims_strides (MultiArray.empty_array Int) [2, 3] (by decide)).2.2.1
      (by decide))⟩

/-- C1, counterexample to the claim as stated: after `reshape([2, 2^32, 2^32])`
the array has `size() == 0` and `strides[0] == 0`, whereas the product of the
shape is `2 ^ 65` and the product of `s[1:]` is `2 ^ 64`. -/
theorem reshape_strides_overflow :
    ((MultiArray.empty_array Int).reshape [2, 2 ^ 32, 2 ^ 32]).fault = none ∧
    ((MultiArray.empty_array Int).reshape [2, 2 ^ 32, 2 ^ 32]).state.strides
      = [0, 2 ^ 32, 1] ∧
    (List.drop 1 ([2, 2 ^ 32, 2 ^ 32] : List Nat)).prod = 2 ^ 64 ∧
    ((MultiArray.empty_array Int).reshape [2, 2 ^ 32, 2 ^ 32]).state.strides[0]?
      ≠ some (List.drop 1 ([2, 2 ^ 32, 2 ^ 32] : List Nat)).prod ∧
    ((MultiArray.empty_array Int).reshape [2, 2 ^ 32, 2 ^ 32]).state.size = 0 ∧
    ((MultiArray.empty_array Int).reshape [2, 2 ^ 32, 2 ^ 32]).state.size
      ≠ ([2, 2 ^ 32, 2 ^ 32] : List Nat).prod := by
  refine ⟨by decide, by decide, by decide, by decide, by decide, by decide⟩

/-- C2.  For every array state and every list of `int` coordinates,
`in_range(coords)` is true if and only if `len(coords) <= len(shape)` and every
supplied coordinate satisfies `0 <= coords[i] < shape[i]`, the comparison being
that of mathematical integers. -/
theorem in_range_iff {T : Type} (a : MultiArray T) (coords : List Int)
    (hint : ∀ c ∈ coords, INT_MIN ≤ c ∧ c ≤ INT_MAX) :
    a.in_range coords = true ↔
      coords.length ≤ a.shape.length ∧
      ∀ (i : Nat) (c : Int) (d : Nat), coords[i]? = some c → a.shape[i]? = some d →
        0 ≤ c ∧ c < (d : Int) := by
  by_cases hlen : coords.length > a.shape.length
  · have h1 : ¬ coords.length ≤ a.shape.length := by omega
    simp [MultiArray.in_range, hlen, h1]
  · have h1 : coords.length ≤ a.shape.length := by omega
    simp only [MultiArray.in_range, hlen, if_false]
    rw [in_range_loop_iff coords a.shape hint h1]
    exact ⟨fun h => ⟨h1, h⟩, fun h => h.2⟩

/-- C2, witness: shape `[2,3]` with the in-range coordinates `[1,2]`. -/
theorem in_range_iff_witness :
    (∀ c ∈ ([1, 2] : List Int), INT_MIN ≤ c ∧ c ≤ INT_MAX) ∧
    (MultiArray.in_range (⟨[], [2, 3], [3, 1]⟩ : MultiArray Int) [1, 2] = true ↔
      ([1, 2] : List Int).length ≤ ([2, 3] : List Nat).length ∧
      ∀ (i : Nat) (c : Int) (d : Nat), ([1, 2] : List Int)[i]? = some c →
        ([2, 3] : List Nat)[i]? = some d → 0 ≤ c ∧ c < (d : Int)) :=
  ⟨by decide, in_range_iff (⟨[], [2, 3], [3, 1]⟩ : MultiArray Int) [1, 2] (by decide)⟩

/-- C3 (as amended).  For every array obtained by `reshape` and every `coords`
with `len(coords) == len(shape)` whose flat offset, the sum over `i` of
`coords[i] * strides[i]`, is that of an element of the buffer (at least `0` and
below `size()`), both overloads of `get(coords)` return the element of `data`
stored at that flat offset. -/
theorem get_flat_offset {T : Type} [Inhabited T] (a0 : MultiArray T) (s : List Nat)
    (hs : s ≠ []) (coords : List Int)
    (hlen : coords.length = (a0.reshape s).state.shape.length)
    (h0 : 0 ≤ flat_offset coords (a0.reshape s).state.strides)
    (h1 : flat_offset coords (a0.reshape s).state.strides < ((a0.reshape s).state.size : Int)) :
    ∃ x, (a0.reshape s).state.data[(flat_offset coords (a0.reshape s).state.strides).toNat]?
        = some x ∧
      (a0.reshape s).state.get coords = Except.ok x ∧
      (a0.reshape s).state.get_const coords = Except.ok x := by
  obtain ⟨hst, hshape⟩ := reshape_strides_length a0 s hs
  have hM := reshape_size_lt a0 s hs
  have hne : coords ≠ [] := by
    intro h
    rw [h, hshape] at hlen
    exact hs (List.length_eq_zero.mp hlen.symm)
  generalize (a0.reshape s).state = a at hst hlen h0 h1 hM
  obtain ⟨j, hj⟩ := Int.eq_ofNat_of_zero_le h0
  have hjl : j < a.data.length := by
    simp only [MultiArray.size] at h1
    omega
  have hget := get_in_buffer a coords hne hlen hst j hj (by omega)
  rw [List.getElem?_eq_getElem hjl] at hget
  refine ⟨a.data[j], ?_, hget, by rw [get_const_eq]; exact hget⟩
  rw [hj]
  simp [List.getElem?_eq_getElem hjl]

/-- C3, witness: with shape `[2,3]` and the buffer `10..15`, `get([1,2])` is the
element at flat offset `5`. -/
theorem get_flat_offset_witness :
    (([2, 3] : List Nat) ≠ [] ∧
      flat_offset [1, 2]
        ((⟨[10, 11, 12, 13, 14, 15], [], []⟩ : MultiArray Int).reshape [2, 3]).state.strides
        = 5 ∧
      ((⟨[10, 11, 12, 13, 14, 15], [], []⟩ : MultiArray Int).reshape [2, 3]).state.size = 6 ∧
      ((⟨[10, 11, 12, 13, 14, 15], [], []⟩ : MultiArray Int).reshape [2, 3]).state.get [1, 2]
        = Except.ok 15) ∧
    ∃ x, ((⟨[10, 11, 12, 13, 14, 15], [], []⟩ : MultiArray Int).reshape [2, 3]).state.data[
          (flat_offset [1, 2] ((⟨[10, 11, 12, 13, 14, 15], [], []⟩ :
            MultiArray Int).reshape [2, 3]).state.strides).toNat]? = some x ∧
      ((⟨[10, 11, 12, 13, 14, 15], [], []⟩ : MultiArray Int).reshape [2, 3]).state.get [1, 2]
        = Except.ok x ∧
      ((⟨[10, 11, 12, 13, 14, 15], [], []⟩ : MultiArray Int).reshape [2, 3]).state.get_const
        [1, 2] = Except.ok x :=
  ⟨⟨by decide, by decide, by decide, rfl⟩,
    get_flat_offset (⟨[10, 11, 12, 13, 14, 15], [], []⟩ : MultiArray Int) [2, 3] (by decide)
      [1, 2] (by decide) (by decide) (by decide)⟩

/-- C3, counterexample to the claim as stated: after `reshape([4, 2^63 + 1])` of
the buffer `[10, 11, 12, 13]` (four elements kept, strides `[2^63 + 1, 1]`) the
sum of `coords[i] * strides[i]` for `coords = [2, 0]` is `2^64 + 2`, where `data`
has no element; the `size_t` product wraps and `get([2, 0])` returns `12`, the
element at flat offset `2`. -/
theorem get_offset_wraps :
    ((⟨[10, 11, 12, 13], [], []⟩ : MultiArray Int).reshape [4, 2 ^ 63 + 1]).state.size = 4 ∧
    ((⟨[10, 11, 12, 13], [], []⟩ : MultiArray Int).reshape [4, 2 ^ 63 + 1]).state.strides
      = [2 ^ 63 + 1, 1] ∧
    flat_offset [2, 0]
      ((⟨[10, 11, 12, 13], [], []⟩ : MultiArray Int).reshape [4, 2 ^ 63 + 1]).state.strides
      = 2 ^ 64 + 2 ∧
    ((⟨[10, 11, 12, 13], [], []⟩ : MultiArray Int).reshape [4, 2 ^ 63 + 1]).state.data[
      2 ^ 64 + 2]? = none ∧
    ((⟨[10, 11, 12, 13], [], []⟩ : MultiArray Int).reshape [4, 2 ^ 63 + 1]).state.get [2, 0]
      = Except.ok 12 ∧
    ((⟨[10, 11, 12, 13], [], []⟩ : MultiArray Int).reshape [4, 2 ^ 63 + 1]).state.get_const
      [2, 0] = Except.ok 12 ∧
    ((⟨[10, 11, 12, 13], [], []⟩ : MultiArray Int).reshape [4, 2 ^ 63 + 1]).state.data[2]?
      = some 12 :=
  ⟨by decide, by decide, by decide, by decide, rfl, rfl, by decide⟩

/-- C4 (as amended).  For every array obtained by `reshape` and every `coords` of
length `k`: if `k == 0`, `operator[]` returns the View `[0, size())`; if
`1 <= k <= num_dims()` it returns a View, and when `start`, the sum over `i < k`
of `coords[i] * strides[i]`, and `start + strides[k-1]` lie in `[0, size()]`
that View is `[start, start + strides[k-1])`, of length `strides[k-1]`; if
`k > num_dims()` it stops on its check.  The const overload returns the same. -/
theorem op_index_view {T : Type} [Inhabited T] (a0 : MultiArray T) (s : List Nat)
    (hs : s ≠ []) (coords : List Int) :
    (coords = [] →
      (a0.reshape s).state.op_index coords
        = Except.ok ⟨Ptr.elem 0, Ptr.elem ((a0.reshape s).state.size : Int)⟩) ∧
    (coords ≠ [] → coords.length ≤ (a0.reshape s).state.num_dims →
      ∃ w : Nat, (a0.reshape s).state.strides[coords.length - 1]? = some w ∧
        (∃ v, (a0.reshape s).state.op_index coords = Except.ok v) ∧
        (0 ≤ flat_offset coords (a0.reshape s).state.strides →
          flat_offset coords (a0.reshape s).state.strides + (w : Int)
            ≤ ((a0.reshape s).state.size : Int) →
          (a0.reshape s).state.op_index coords
            = Except.ok ⟨Ptr.elem (flat_offset coords (a0.reshape s).state.strides),
                Ptr.elem (flat_offset coords (a0.reshape s).state.strides + (w : Int))⟩ ∧
          ∀ v, (a0.reshape s).state.op_index coords = Except.ok v → v.length = (w : Int))) ∧
    ((a0.reshape s).state.num_dims < coords.length →
      (a0.reshape s).state.op_index coords = Except.error Fault.check) ∧
    (a0.reshape s).state.op_index_const coords = (a0.reshape s).state.op_index coords := by
  obtain ⟨hst, _⟩ := reshape_strides_length a0 s hs
  have hM := reshape_size_lt a0 s hs
  generalize (a0.reshape s).state = a at hst hM
  refine ⟨?_, ?_, ?_, op_index_const_eq _ _⟩
  · intro hnil
    rw [hnil]
    exact op_index_nil _
  · intro hne hk
    obtain ⟨w, hw, hop⟩ := op_index_cons a coords hne hk hst
    refine ⟨w, hw, ⟨_, hop⟩, ?_⟩
    intro h0 h1
    simp only [MultiArray.size] at h1
    have hex := op_index_exact a coords hne hk hst w hw h0 (by omega)
    refine ⟨hex, ?_⟩
    intro v hv
    rw [hex] at hv
    cases hv
    simp [View.length]
  · intro hk
    exact op_index_too_long _ _ hk

/-- C4, witness: with shape `[2,3]`, indexing with `[1]` yields the flat offsets
`[3, 6)`. -/
theorem op_index_view_witness :
    (([2, 3] : List Nat) ≠ [] ∧ ([1] : List Int) ≠ [] ∧
      ([1] : List Int).length ≤ ((MultiArray.empty_array Int).reshape [2, 3]).state.num_dims) ∧
    ((MultiArray.empty_array Int).reshape [2, 3]).state.op_index [1]
      = Except.ok ⟨Ptr.elem 3, Ptr.elem 6⟩ ∧
    ∃ w : Nat, ((MultiArray.empty_array Int).reshape [2, 3]).state.strides[
        ([1] : List Int).length - 1]? = some w ∧
      (∃ v, ((MultiArray.empty_array Int).reshape [2, 3]).state.op_index [1] = Except.ok v) ∧
      (0 ≤ flat_offset [1] ((MultiArray.empty_array Int).reshape [2, 3]).state.strides →
        flat_offset [1] ((MultiArray.empty_array Int).reshape [2, 3]).state.strides + (w : Int)
          ≤ (((MultiArray.empty_array Int).reshape [2, 3]).state.size : Int) →
        ((MultiArray.empty_array Int).reshape [2, 3]).state.op_index [1]
          = Except.ok
              ⟨Ptr.elem (flat_offset [1]
                  ((MultiArray.empty_array Int).reshape [2, 3]).state.strides),
                Ptr.elem (flat_offset [1]
                  ((MultiArray.empty_array Int).reshape [2, 3]).state.strides + (w : Int))⟩ ∧
        ∀ v, ((MultiArray.empty_array Int).reshape [2, 3]).state.op_index [1] = Except.ok v →
          v.length = (w : Int)) :=
  ⟨⟨by decide, by decide, by decide⟩, rfl,
    (op_index_view (MultiArray.empty_array Int) [2, 3] (by decide) [1]).2.1 (by decide)
      (by decide)⟩

/-- C4, counterexample to the claim as stated: after `reshape([4, 2^63 + 1])`
(four elements, strides `[2^63 + 1, 1]`) the sum of `coords[i] * strides[i]` for
`coords = [2, 0]` is `2^64 + 2`, but the `size_t` product wraps and indexing
returns the View `[2, 3)`. -/
theorem op_index_offset_wraps :
    ((MultiArray.empty_array Int).reshape [4, 2 ^ 63 + 1]).state.size = 4 ∧
    ((MultiArray.empty_array Int).reshape [4, 2 ^ 63 + 1]).state.num_dims = 2 ∧
    flat_offset [2, 0] ((MultiArray.empty_array Int).reshape [4, 2 ^ 63 + 1]).state.strides
      = 2 ^ 64 + 2 ∧
    ((MultiArray.empty_array Int).reshape [4, 2 ^ 63 + 1]).state.op_index [2, 0]
      = Except.ok ⟨Ptr.elem 2, Ptr.elem 3⟩ ∧
    ((MultiArray.empty_array Int).reshape [4, 2 ^ 63 + 1]).state.op_index_const [2, 0]
      = Except.ok ⟨Ptr.elem 2, Ptr.elem 3⟩ ∧
    (Ptr.elem 2 ≠ Ptr.elem (2 ^ 64 + 2)) :=
  ⟨by decide, by decide, by decide, rfl, rfl, by decide⟩

/-- C5 (as amended).  For every array obtained by `reshape(s)` where the product
of `s` is below `2 ^ 64`, every in-range coordinate prefix `c` and every in-range
full coordinate `x`: indexing with `c` returns a View `[start, stop)`, and the
flat offset of `x` lies in `[start, stop)` if and only if the first `len(c)`
entries of `x` are `c`. -/
theorem op_index_slab {T : Type} [Inhabited T] (a0 : MultiArray T) (s : List Nat)
    (hs : s ≠ []) (hprod : s.prod < SIZE_MOD) (c x : List Int)
    (hintc : ∀ z ∈ c, INT_MIN ≤ z ∧ z ≤ INT_MAX)
    (hintx : ∀ z ∈ x, INT_MIN ≤ z ∧ z ≤ INT_MAX)
    (hc : (a0.reshape s).state.in_range c = true)
    (hxl : x.length = (a0.reshape s).state.num_dims)
    (hx : (a0.reshape s).state.in_range x = true) :
    ∃ start stop : Int,
      (a0.reshape s).state.op_index c = Except.ok ⟨Ptr.elem start, Ptr.elem stop⟩ ∧
      ((start ≤ flat_offset x (a0.reshape s).state.strides ∧
          flat_offset x (a0.reshape s).state.strides < stop)
        ↔ x.take c.length = c) := by
  have hcl := in_range_length _ _ hc
  have hcr := in_range_loop_of_in_range _ _ hc
  have hxr := in_range_loop_of_in_range _ _ hx
  rw [reshape_spec a0 s hs] at hcl hcr hxr hxl ⊢
  simp only [MultiArray.num_dims] at hcl hcr hxr hxl ⊢
  by_cases hnil : c = []
  · subst hnil
    refine ⟨0, ((vector_resize a0.data (product s) default).length : Int), op_index_nil _, ?_⟩
    obtain ⟨b0, b1⟩ := offset_bounds s x hxl hintx hxr hprod
    rw [length_vector_resize, product_eq, Nat.mod_eq_of_lt hprod]
    simp only [List.length_nil, List.take_zero, iff_true]
    exact ⟨b0, b1⟩
  · obtain ⟨w, hw, b0, b1, hiff⟩ := slab_iff s c x hprod hnil hcl hxl hintc hintx hcr hxr
    have hM : (s.prod : Int) < (SIZE_MOD : Int) := by exact_mod_cast hprod
    have hop := op_index_exact (⟨vector_resize a0.data (product s) default, s,
      row_major s⟩ : MultiArray T) c hnil hcl (length_row_major s) w hw b0 (by simp only; omega)
    exact ⟨_, _, hop, hiff⟩

/-- C5, witness: shape `[2,3]`, prefix `[1]` and full coordinate `[1,2]`. -/
theorem op_index_slab_witness :
    (([2, 3] : List Nat) ≠ [] ∧ ([2, 3] : List Nat).prod < SIZE_MOD ∧
      ((MultiArray.empty_array Int).reshape [2, 3]).state.in_range [1] = true ∧
      ((MultiArray.empty_array Int).reshape [2, 3]).state.in_range [1, 2] = true) ∧
    ∃ start stop : Int,
      ((MultiArray.empty_array Int).reshape [2, 3]).state.op_index [1]
        = Except.ok ⟨Ptr.elem start, Ptr.elem stop⟩ ∧
      ((start ≤ flat_offset [1, 2] ((MultiArray.empty_array Int).reshape [2, 3]).state.strides ∧
          flat_offset [1, 2] ((MultiArray.empty_array Int).reshape [2, 3]).state.strides < stop)
        ↔ List.take ([1] : List Int).length ([1, 2] : List Int) = [1]) :=
  ⟨⟨by decide, by decide, by decide, by decide⟩,
    op_index_slab (MultiArray.empty_array Int) [2, 3] (by decide) (by decide) [1] [1, 2]
      (by decide) (by decide) (by decide) (by decide) (by decide)⟩

/-- C5, counterexample to the claim as stated: after
`reshape([2, 2^32, 2^32])` the prefix `[0]` and the full coordinate `[0,0,0]`
are both in range and the leading entry of the latter is `0`, yet its flat
offset `0` is not inside the (empty) View `[0, 0)` returned for `[0]`. -/
theorem op_index_slab_overflow :
    ((MultiArray.empty_array Int).reshape [2, 2 ^ 32, 2 ^ 32]).state.in_range [0] = true ∧
    ((MultiArray.empty_array Int).reshape [2, 2 ^ 32, 2 ^ 32]).state.in_range [0, 0, 0]
      = true ∧
    ((MultiArray.empty_array Int).reshape [2, 2 ^ 32, 2 ^ 32]).state.op_index [0]
      = Except.ok ⟨Ptr.elem 0, Ptr.elem 0⟩ ∧
    flat_offset [0, 0, 0]
      ((MultiArray.empty_array Int).reshape [2, 2 ^ 32, 2 ^ 32]).state.strides = 0 ∧
    List.take ([0] : List Int).length ([0, 0, 0] : List Int) = [0] ∧
    ¬ ((0 : Int) ≤ 0 ∧ (0 : Int) < 0) :=
  ⟨by decide, by decide, rfl, by decide, by decide, by decide⟩

/-- C6 (as amended).  For every array obtained by `reshape(s)` where the product
of `s` is below `2 ^ 64` and every `coords`, `at(coords)` returns a View, and
that View is empty (`start == end`) if and only if `in_range(coords)` is false
or the slab selected by `coords` has length `0` (`strides[k-1] == 0` for
`k = len(coords) > 0`, `size() == 0` for `k == 0`); when `in_range(coords)` is
false the View is the null View. -/
theorem at_empty_iff {T : Type} [Inhabited T] (a0 : MultiArray T) (s : List Nat)
    (hs : s ≠ []) (hprod : s.prod < SIZE_MOD) (coords : List Int)
    (hint : ∀ z ∈ coords, INT_MIN ≤ z ∧ z ≤ INT_MAX) :
    ∃ v, (a0.reshape s).state.at_ coords = Except.ok v ∧
      (a0.reshape s).state.at_const coords = Except.ok v ∧
      (v.empty = true ↔
        ((a0.reshape s).state.in_range coords = false ∨
          (a0.reshape s).state.slab_length coords.length = 0)) ∧
      ((a0.reshape s).state.in_range coords = false → v = View.nullView) := by
  by_cases hin : (a0.reshape s).state.in_range coords = true
  · have hcl := in_range_length _ _ hin
    have hcr := in_range_loop_of_in_range _ _ hin
    simp only [MultiArray.at_, MultiArray.at_const, hin, if_true, op_index_const_eq]
    rw [reshape_spec a0 s hs] at hcl hcr ⊢
    simp only at hcl hcr ⊢
    by_cases hnil : coords = []
    · subst hnil
      refine ⟨⟨Ptr.elem 0, Ptr.elem (vector_resize a0.data (product s) (default : T)).length⟩,
        op_index_nil _, op_index_nil _, ?_, ?_⟩
      · simp only [View.empty, MultiArray.slab_length, beq_iff_eq, Ptr.elem.injEq,
          List.length_nil, if_true, Bool.true_eq_false, false_or]
        omega
      · intro h
        cases h
    · obtain ⟨w, hw, b0, b1⟩ := prefix_bounds s coords hprod hnil hcl hint hcr
      have hM : (s.prod : Int) < (SIZE_MOD : Int) := by exact_mod_cast hprod
      have hop := op_index_exact (⟨vector_resize a0.data (product s) default, s,
        row_major s⟩ : MultiArray T) coords hnil hcl (length_row_major s) w hw b0
        (by simp only; omega)
      simp only at hop
      have hpos : 0 < coords.length := List.length_pos.mpr hnil
      have hk0 : ¬ coords.length = 0 := by omega
      refine ⟨_, hop, hop, ?_, ?_⟩
      · simp only [View.empty, MultiArray.slab_length, hk0, if_false, beq_iff_eq,
          Ptr.elem.injEq, Bool.true_eq_false, false_or, List.getD_eq_getElem?_getD, hw,
          Option.getD_some]
        omega
      · intro h
        cases h
  · have hf : (a0.reshape s).state.in_range coords = false := by simpa using hin
    refine ⟨View.nullView, ?_, ?_, ?_, fun _ => rfl⟩
    · simp [MultiArray.at_, hf]
    · simp [MultiArray.at_const, hf]
    · simp [View.empty, View.nullView, hf]

/-- C6, witness: after `reshape([2,3])` the in-range coordinate `[1]` yields the
non-empty View `[3, 6)`, and the out-of-range coordinate `[2]` the null View. -/
theorem at_empty_iff_witness :
    (([2, 3] : List Nat) ≠ [] ∧ ([2, 3] : List Nat).prod < SIZE_MOD ∧
      (∀ z ∈ ([1] : List Int), INT_MIN ≤ z ∧ z ≤ INT_MAX) ∧
      ((MultiArray.empty_array Int).reshape [2, 3]).state.in_range [1] = true ∧
      ((MultiArray.empty_array Int).reshape [2, 3]).state.at_ [1]
        = Except.ok ⟨Ptr.elem 3, Ptr.elem 6⟩ ∧
      View.empty ⟨Ptr.elem 3, Ptr.elem 6⟩ = false ∧
      ((MultiArray.empty_array Int).reshape [2, 3]).state.slab_length 1 = 3 ∧
      ((MultiArray.empty_array Int).reshape [2, 3]).state.in_range [2] = false ∧
      ((MultiArray.empty_array Int).reshape [2, 3]).state.at_ [2]
        = Except.ok View.nullView) ∧
    ∃ v, ((MultiArray.empty_array Int).reshape [2, 3]).state.at_ [1] = Except.ok v ∧
      ((MultiArray.empty_array Int).reshape [2, 3]).state.at_const [1] = Except.ok v ∧
      (v.empty = true ↔
        (((MultiArray.empty_array Int).reshape [2, 3]).state.in_range [1] = false ∨
          ((MultiArray.empty_array Int).reshape [2, 3]).state.slab_length
            ([1] : List Int).length = 0)) ∧
      (((MultiArray.empty_array Int).reshape [2, 3]).state.in_range [1] = false →
        v = View.nullView) :=
  ⟨⟨by decide, by decide, by decide, by decide, rfl, by decide, by decide, by decide, rfl⟩,
    at_empty_iff (MultiArray.empty_array Int) [2, 3] (by decide) (by decide) [1] (by decide)⟩

/-- C6, counterexample to the claim as stated: after `reshape([2,0])` the
coordinate `[1]` is in range, and `at([1])` returns the empty View `[0, 0)`;
after `reshape([0,4])` the empty coordinate list is in range, and `at([])`
returns the View of the whole (empty) buffer. -/
theorem at_empty_in_range :
    ((MultiArray.empty_array Int).reshape [2, 0]).fault = none ∧
    ((MultiArray.empty_array Int).reshape [2, 0]).state.in_range [1] = true ∧
    ((MultiArray.empty_array Int).reshape [2, 0]).state.at_ [1]
      = Except.ok ⟨Ptr.elem 0, Ptr.elem 0⟩ ∧
    View.empty ⟨Ptr.elem 0, Ptr.elem 0⟩ = true ∧
    ((MultiArray.empty_array Int).reshape [0, 4]).state.in_range [] = true ∧
    ((MultiArray.empty_array Int).reshape [0, 4]).state.at_ []
      = Except.ok ⟨Ptr.elem 0, Ptr.elem 0⟩ :=
  ⟨by decide, by decide, rfl, by decide, by decide, rfl⟩

/-- C7.  For every array state and every `coords` (any length, any values): if
`in_range(coords)` holds then `coords` passes the cardinality check of direct
indexing and `at(coords)` returns exactly what direct indexing returns;
otherwise `at(coords)` returns the null View.  In no case does `at` stop on a
check, and it returns a View whenever `strides` has as many entries as
`shape`. -/
theorem at_never_fails {T : Type} (a : MultiArray T) (coords : List Int) :
    (a.in_range coords = true →
      coords.length ≤ a.shape.length ∧
      a.op_index coords ≠ Except.error Fault.check ∧
      a.at_ coords = a.op_index coords ∧
      a.at_const coords = a.op_index_const coords) ∧
    (a.in_range coords = false →
      a.at_ coords = Except.ok View.nullView ∧
      a.at_const coords = Except.ok View.nullView) ∧
    a.at_ coords ≠ Except.error Fault.check ∧
    a.at_const coords ≠ Except.error Fault.check ∧
    (a.strides.length = a.shape.length →
      ∃ v, a.at_ coords = Except.ok v ∧ a.at_const coords = Except.ok v) := by
  have hcheck : a.in_range coords = true → a.op_index coords ≠ Except.error Fault.check := by
    intro hin h
    have := op_index_fault a coords (in_range_length a coords hin) Fault.check h
    cases this
  refine ⟨?_, ?_, ?_, ?_, ?_⟩
  · intro hin
    refine ⟨in_range_length a coords hin, hcheck hin, ?_, ?_⟩
    · simp [MultiArray.at_, hin]
    · simp [MultiArray.at_const, hin]
  · intro hf
    constructor
    · simp [MultiArray.at_, hf]
    · simp [MultiArray.at_const, hf]
  · by_cases hin : a.in_range coords = true
    · simp only [MultiArray.at_, hin, if_true]
      exact hcheck hin
    · have hf : a.in_range coords = false := by simpa using hin
      simp [MultiArray.at_, hf]
  · by_cases hin : a.in_range coords = true
    · simp only [MultiArray.at_const, hin, if_true]
      exact hcheck hin
    · have hf : a.in_range coords = false := by simpa using hin
      simp [MultiArray.at_const, hf]
  · intro hst
    obtain ⟨v, h1, h2⟩ := at_returns_view a hst coords
    exact ⟨v, h1, h2⟩

/-- C8 (as amended).  For every target state and every source array `other` with
a non-empty shape and at most `product(other.shape)` elements (as every array
obtained by `reshape` has), `assign(other)` returns normally with
`self.shape == other.shape` and `self.data[j] == convert(other.data[j])` for
every flat index `j` of `other.data`; the assignment operator for a source of
another element type is the member template and does the same.  For a source
`src` of the same element type the expression `self = src` is the implicit
member-wise copy: for every `src` it returns normally and leaves `self` with the
data, shape and strides of `src`. -/
theorem assign_copies {T T2 : Type} [Inhabited T] (convert : T2 → T) (self : MultiArray T)
    (other : MultiArray T2) (hshape : other.shape ≠ [])
    (hdata : other.data.length ≤ product other.shape) (src : MultiArray T) :
    ((self.assign convert other).fault = none ∧
      (self.assign convert other).state.shape = other.shape ∧
      (self.assign convert other).state.data.length = product other.shape ∧
      (∀ (j : Nat) (y : T2), other.data[j]? = some y →
        (self.assign convert other).state.data[j]? = some (convert y))) ∧
    (T2 ≠ T → self.op_assign convert other = self.assign convert other) ∧
    ((self.op_assign_copy src).fault = none ∧
      (self.op_assign_copy src).state.shape = src.shape ∧
      (self.op_assign_copy src).state.data = src.data ∧
      (self.op_assign_copy src).state.strides = src.strides) := by
  obtain ⟨h1, h2, h3, h4⟩ := assign_spec convert self other hshape hdata
  exact ⟨⟨h1, h2, h3, h4⟩, fun _ => rfl, rfl, rfl, rfl, rfl⟩

/-- C8, witness: a `bool` array of shape `[2,2]` assigned to a default-constructed
array of `int`, and a same-type copy of an `int` array of shape `[2]`. -/
theorem assign_copies_witness :
    (([2, 2] : List Nat) ≠ [] ∧ ([true, false, false, true] : List Bool).length ≤ product [2, 2] ∧
      Bool ≠ Int ∧
      (MultiArray.assign (fun b : Bool => if b then (1 : Int) else 0)
        (MultiArray.empty_array Int)
        (⟨[true, false, false, true], [2, 2], [2, 1]⟩ : MultiArray Bool)).state.data
        = [1, 0, 0, 1]) ∧
    (((MultiArray.assign (fun b : Bool => if b then (1 : Int) else 0)
        (MultiArray.empty_array Int)
        (⟨[true, false, false, true], [2, 2], [2, 1]⟩ : MultiArray Bool)).fault = none ∧
      (MultiArray.assign (fun b : Bool => if b then (1 : Int) else 0)
        (MultiArray.empty_array Int)
        (⟨[true, false, false, true], [2, 2], [2, 1]⟩ : MultiArray Bool)).state.shape
        = [2, 2] ∧
      (MultiArray.assign (fun b : Bool => if b then (1 : Int) else 0)
        (MultiArray.empty_array Int)
        (⟨[true, false, false, true], [2, 2], [2, 1]⟩ : MultiArray Bool)).state.data.length
        = product [2, 2] ∧
      (∀ (j : Nat) (y : Bool), ([true, false, false, true] : List Bool)[j]? = some y →
        (MultiArray.assign (fun b : Bool => if b then (1 : Int) else 0)
          (MultiArray.empty_array Int)
          (⟨[true, false, false, true], [2, 2], [2, 1]⟩ : MultiArray Bool)).state.data[j]?
          = some (if y then (1 : Int) else 0))) ∧
    (Bool ≠ Int →
      MultiArray.op_assign (fun b : Bool => if b then (1 : Int) else 0)
        (MultiArray.empty_array Int)
        (⟨[true, false, false, true], [2, 2], [2, 1]⟩ : MultiArray Bool)
      = MultiArray.assign (fun b : Bool => if b then (1 : Int) else 0)
        (MultiArray.empty_array Int)
        (⟨[true, false, false, true], [2, 2], [2, 1]⟩ : MultiArray Bool)) ∧
    ((MultiArray.op_assign_copy (MultiArray.empty_array Int)
        (⟨[4, 5], [2], [1]⟩ : MultiArray Int)).fault = none ∧
      (MultiArray.op_assign_copy (MultiArray.empty_array Int)
        (⟨[4, 5], [2], [1]⟩ : MultiArray Int)).state.shape = [2] ∧
      (MultiArray.op_assign_copy (MultiArray.empty_array Int)
        (⟨[4, 5], [2], [1]⟩ : MultiArray Int)).state.data = [4, 5] ∧
      (MultiArray.op_assign_copy (MultiArray.empty_array Int)
        (⟨[4, 5], [2], [1]⟩ : MultiArray Int)).state.strides = [1])) :=
  ⟨⟨by decide, by decide, bool_ne_int, by decide⟩,
    assign_copies (fun b : Bool => if b then (1 : Int) else 0) (MultiArray.empty_array Int)
      (⟨[true, false, false, true], [2, 2], [2, 1]⟩ : MultiArray Bool) (by decide) (by decide)
      (⟨[4, 5], [2], [1]⟩ : MultiArray Int)⟩

/-- C8, counterexample to the claim as stated: assigning a default-constructed
source (empty shape) to an array of shape `[2]` stops on the assertion of
`reshape` and leaves the target with shape `[2]`, not the shape `[]` of the
source; a source of shape `[2]` holding three elements makes `copy` write past
the two-element buffer; and for a source of the same element type the
assignment operator does not delegate to `assign`: `self = src` with a
default-constructed `src` returns normally where `assign` stops. -/
theorem assign_empty_source_fails :
    (MultiArray.assign Int.natAbs (⟨[1, 2], [2], [1]⟩ : MultiArray Nat)
      (MultiArray.empty_array Int)).fault = some Fault.assertion ∧
    (MultiArray.assign Int.natAbs (⟨[1, 2], [2], [1]⟩ : MultiArray Nat)
      (MultiArray.empty_array Int)).state.shape = [2] ∧
    (MultiArray.assign Int.natAbs (⟨[1, 2], [2], [1]⟩ : MultiArray Nat)
      (MultiArray.empty_array Int)).state.shape ≠ (MultiArray.empty_array Int).shape ∧
    (MultiArray.assign Int.natAbs (MultiArray.empty_array Nat)
      (⟨[1, 2, 3], [2], [1]⟩ : MultiArray Int)).fault = some Fault.undefined ∧
    (MultiArray.op_assign_copy (⟨[1, 2], [2], [1]⟩ : MultiArray Nat)
      (MultiArray.empty_array Nat)).fault = none ∧
    (MultiArray.assign (fun n : Nat => n) (⟨[1, 2], [2], [1]⟩ : MultiArray Nat)
      (MultiArray.empty_array Nat)).fault = some Fault.assertion :=
  ⟨by decide, by decide, by decide, by decide, by decide, by decide⟩

/-- C9 (as amended).  After `reshape`, `reshape` with a fill value, `assign` and
the assignment operator from another element type (for a source with a
non-empty shape and at most `product(shape)` elements) and the shape-taking
constructors, each applied to any array state and returning normally,
`data.size()` equals `product(shape)` taken modulo `2 ^ 64` and
`strides.size() == shape.size()`.  A write through `get` changes neither
`data.size()` nor `shape` nor `strides`, so both equalities hold after it
whenever they held before.  The assignment `self = src` from the same element
type copies the members of `src`, so both equalities hold after it exactly when
they hold of `src`. -/
theorem invariant_after_mutation {T T2 : Type} [Inhabited T] (convert : T2 → T)
    (a : MultiArray T) (s : List Nat) (hs : s ≠ []) (fillval : T) (other : MultiArray T2)
    (hshape : other.shape ≠ []) (hdata : other.data.length ≤ product other.shape)
    (coords : List Int) (x : T) (src : MultiArray T) :
    ((a.reshape s).fault = none ∧ (a.reshape s).state.invariant) ∧
    ((a.reshape_fill s fillval).fault = none ∧ (a.reshape_fill s fillval).state.invariant) ∧
    ((a.assign convert other).fault = none ∧ (a.assign convert other).state.invariant) ∧
    (T2 ≠ T → (a.op_assign convert other).fault = none ∧
      (a.op_assign convert other).state.invariant) ∧
    ((MultiArray.construct s : Outcome T).fault = none ∧
      (MultiArray.construct s : Outcome T).state.invariant) ∧
    ((MultiArray.construct_fill s fillval).fault = none ∧
      (MultiArray.construct_fill s fillval).state.invariant) ∧
    ((a.get_write coords x).state.data.length = a.data.length ∧
      (a.get_write coords x).state.shape = a.shape ∧
      (a.get_write coords x).state.strides = a.strides) ∧
    (a.invariant → (a.get_write coords x).state.invariant) ∧
    ((a.op_assign_copy src).fault = none ∧
      ((a.op_assign_copy src).state.invariant ↔ src.invariant)) := by
  obtain ⟨g1, g2, g3⟩ := get_write_frame a coords x
  obtain ⟨h1, h2, h3, _⟩ := assign_spec convert a other hshape hdata
  have hassign : (a.assign convert other).state.invariant := by
    refine ⟨?_, ?_⟩
    · rw [h3, h2, product_eq]
    · rw [assign_strides convert a other hshape hdata, h2, length_row_major]
  refine ⟨reshape_invariant a s hs, reshape_fill_invariant a s hs fillval,
    ⟨h1, hassign⟩, fun _ => ⟨h1, hassign⟩, reshape_invariant _ s hs,
    reshape_fill_invariant _ s hs fillval, ⟨g1, g2, g3⟩, ?_, rfl, Iff.rfl⟩
  intro hinv
  exact ⟨by rw [g1, g2]; exact hinv.1, by rw [g2, g3]; exact hinv.2⟩

/-- C9, witness: a default-constructed array of `int`, the shape `[2,3]`, a
`bool` source of shape `[2]`, a write at `[0]`, and a same-type source of shape
`[2]`. -/
theorem invariant_after_mutation_witness :
    (([2, 3] : List Nat) ≠ [] ∧ ([2] : List Nat) ≠ [] ∧
      ([true, false] : List Bool).length ≤ product [2] ∧ Bool ≠ Int) ∧
    (((MultiArray.empty_array Int).reshape [2, 3]).fault = none ∧
      ((MultiArray.empty_array Int).reshape [2, 3]).state.invariant) ∧
    ((MultiArray.assign (fun b : Bool => if b then (1 : Int) else 0)
        (MultiArray.empty_array Int) (⟨[true, false], [2], [1]⟩ : MultiArray Bool)).fault
        = none ∧
      (MultiArray.assign (fun b : Bool => if b then (1 : Int) else 0)
        (MultiArray.empty_array Int)
        (⟨[true, false], [2], [1]⟩ : MultiArray Bool)).state.invariant) ∧
    ((MultiArray.op_assign (fun b : Bool => if b then (1 : Int) else 0)
        (MultiArray.empty_array Int) (⟨[true, false], [2], [1]⟩ : MultiArray Bool)).fault
        = none ∧
      (MultiArray.op_assign (fun b : Bool => if b then (1 : Int) else 0)
        (MultiArray.empty_array Int)
        (⟨[true, false], [2], [1]⟩ : MultiArray Bool)).state.invariant) ∧
    ((MultiArray.op_assign_copy (MultiArray.empty_array Int)
        (⟨[4, 5], [2], [1]⟩ : MultiArray Int)).fault = none ∧
      ((MultiArray.op_assign_copy (MultiArray.empty_array Int)
          (⟨[4, 5], [2], [1]⟩ : MultiArray Int)).state.invariant ↔
        (⟨[4, 5], [2], [1]⟩ : MultiArray Int).invariant)) :=
  ⟨⟨by decide, by decide, by decide, bool_ne_int⟩,
    (invariant_after_mutation (fun b : Bool => if b then (1 : Int) else 0)
      (MultiArray.empty_array Int) [2, 3] (by decide) 0
      (⟨[true, false], [2], [1]⟩ : MultiArray Bool) (by decide) (by decide) [0] 9
      (⟨[4, 5], [2], [1]⟩ : MultiArray Int)).1,
    (invariant_after_mutation (fun b : Bool => if b then (1 : Int) else 0)
      (MultiArray.empty_array Int) [2, 3] (by decide) 0
      (⟨[true, false], [2], [1]⟩ : MultiArray Bool) (by decide) (by decide) [0] 9
      (⟨[4, 5], [2], [1]⟩ : MultiArray Int)).2.2.1,
    (invariant_after_mutation (fun b : Bool => if b then (1 : Int) else 0)
      (MultiArray.empty_array Int) [2, 3] (by decide) 0
      (⟨[true, false], [2], [1]⟩ : MultiArray Bool) (by decide) (by decide) [0] 9
      (⟨[4, 5], [2], [1]⟩ : MultiArray Int)).2.2.2.1 bool_ne_int,
    (invariant_after_mutation (fun b : Bool => if b then (1 : Int) else 0)
      (MultiArray.empty_array Int) [2, 3] (by decide) 0
      (⟨[true, false], [2], [1]⟩ : MultiArray Bool) (by decide) (by decide) [0] 9
      (⟨[4, 5], [2], [1]⟩ : MultiArray Int)).2.2.2.2.2.2.2.2⟩

/-- C9, counterexample to the claim as stated: `reshape([2^32, 2^32])` returns
normally with `data.size() == 0` although the product of the shape is `2 ^ 64`;
a write through `get` leaves the three-element buffer of an array of shape
`[2]` as long as it was; and the same-type assignment from a source holding one
element under the shape `[3]` leaves one element under the shape `[3]`. -/
theorem invariant_exact_product_fails :
    ((MultiArray.empty_array Int).reshape [2 ^ 32, 2 ^ 32]).fault = none ∧
    ((MultiArray.empty_array Int).reshape [2 ^ 32, 2 ^ 32]).state.data.length = 0 ∧
    ((MultiArray.empty_array Int).reshape [2 ^ 32, 2 ^ 32]).state.shape.prod = 2 ^ 64 ∧
    ((⟨[7, 8, 9], [2], [1]⟩ : MultiArray Int).get_write [0] 5).fault = none ∧
    ((⟨[7, 8, 9], [2], [1]⟩ : MultiArray Int).get_write [0] 5).state.data.length = 3 ∧
    ((⟨[7, 8, 9], [2], [1]⟩ : MultiArray Int).get_write [0] 5).state.shape.prod = 2 ∧
    ((MultiArray.empty_array Int).op_assign_copy (⟨[5], [3], [1]⟩ : MultiArray Int)).fault
      = none ∧
    ((MultiArray.empty_array Int).op_assign_copy
      (⟨[5], [3], [1]⟩ : MultiArray Int)).state.data.length = 1 ∧
    ((MultiArray.empty_array Int).op_assign_copy
      (⟨[5], [3], [1]⟩ : MultiArray Int)).state.shape.prod = 3 :=
  ⟨by decide, by decide, by decide, by decide, by decide, by decide, by decide, by decide,
    by decide⟩

/-- C10.  `reshape(newShape)` stops on its assertion if and only if `newShape`
is empty, it returns normally otherwise, and when it stops the array (data,
shape, strides) is what it was before the call; the same holds for
`reshape(newShape, fillValue)`. -/
theorem reshape_fails_iff {T : Type} [Inhabited T] (a : MultiArray T) (newShape : List Nat)
    (fillval : T) :
    ((a.reshape newShape).fault = some Fault.assertion ↔ newShape = []) ∧
    ((a.reshape newShape).fault ≠ none ↔ newShape = []) ∧
    ((a.reshape newShape).fault ≠ none → (a.reshape newShape).state = a) ∧
    ((a.reshape_fill newShape fillval).fault = some Fault.assertion ↔ newShape = []) ∧
    ((a.reshape_fill newShape fillval).fault ≠ none ↔ newShape = []) ∧
    ((a.reshape_fill newShape fillval).fault ≠ none →
      (a.reshape_fill newShape fillval).state = a) := by
  by_cases hs : newShape = []
  · subst hs
    simp [MultiArray.reshape, MultiArray.reshape_fill]
  · have h1 := reshape_spec a newShape hs
    have h2 := reshape_fill_spec a newShape hs fillval
    rw [h1, h2]
    simp [hs]

/-- C11.  In every array state, each overload of `get(coords)`, and a write
through `get`, stops on the check if and only if `len(coords) != len(shape)`;
for a full-length coordinate list, whatever the coordinate values, `get` raises
no check, assertion or exception (the access itself is undefined behaviour only
when the addressed position is not an element of the buffer). -/
theorem get_check_iff {T : Type} (a : MultiArray T) (coords : List Int) (x : T) :
    (a.get coords = Except.error Fault.check ↔ coords.length ≠ a.shape.length) ∧
    (a.get_const coords = Except.error Fault.check ↔ coords.length ≠ a.shape.length) ∧
    ((a.get_write coords x).fault = some Fault.check ↔ coords.length ≠ a.shape.length) ∧
    (coords.length = a.shape.length →
      ∀ f, a.get coords = Except.error f ∨ a.get_const coords = Except.error f ∨
        (a.get_write coords x).fault = some f → f = Fault.undefined) := by
  have hget : a.get coords = Except.error Fault.check ↔ coords.length ≠ a.shape.length := by
    constructor
    · intro h hk
      have := get_fault a coords hk Fault.check h
      cases this
    · intro hk
      simp [MultiArray.get, hk]
  refine ⟨hget, by rw [get_const_eq]; exact hget, ?_, ?_⟩
  · constructor
    · intro h hk
      have := get_write_fault a coords x hk Fault.check h
      cases this
    · intro hk
      simp [MultiArray.get_write, hk]
  · intro hk f h
    rcases h with h | h | h
    · exact get_fault a coords hk f h
    · rw [get_const_eq] at h
      exact get_fault a coords hk f h
    · exact get_write_fault a coords x hk f h

/-- C12 (as amended).  Round trip: for every array obtained by `reshape`, every
`coords` with `len(coords) == len(shape)` and every value `v`: whenever the write
of `v` through `get(coords)` returns normally, reading `get(coords)` (either
overload) with the same coordinates returns `v`; and the write does return
normally whenever the flat offset, the sum of `coords[i] * strides[i]`, is that
of an element of the buffer (at least `0` and below `size()`). -/
theorem get_round_trip {T : Type} [Inhabited T] (a0 : MultiArray T) (s : List Nat)
    (hs : s ≠ []) (coords : List Int)
    (hlen : coords.length = (a0.reshape s).state.shape.length) (v : T) :
    (((a0.reshape s).state.get_write coords v).fault = none →
      ((a0.reshape s).state.get_write coords v).state.get coords = Except.ok v ∧
      ((a0.reshape s).state.get_write coords v).state.get_const coords = Except.ok v) ∧
    (0 ≤ flat_offset coords (a0.reshape s).state.strides →
      flat_offset coords (a0.reshape s).state.strides < ((a0.reshape s).state.size : Int) →
      ((a0.reshape s).state.get_write coords v).fault = none ∧
      ((a0.reshape s).state.get_write coords v).state.get coords = Except.ok v ∧
      ((a0.reshape s).state.get_write coords v).state.get_const coords = Except.ok v) := by
  obtain ⟨hst, hshape⟩ := reshape_strides_length a0 s hs
  have hM := reshape_size_lt a0 s hs
  have hne : coords ≠ [] := by
    intro h
    rw [h, hshape] at hlen
    exact hs (List.length_eq_zero.mp hlen.symm)
  generalize (a0.reshape s).state = a at hst hlen hM
  have hmain : (a.get_write coords v).fault = none →
      (a.get_write coords v).state.get coords = Except.ok v := by
    intro hf
    rw [get_write_eq a coords v hne hlen hst] at hf ⊢
    have hp0 : 0 ≤ flat_offset coords a.strides % (SIZE_MOD : Int) :=
      Int.emod_nonneg _ (by decide)
    by_cases hin : (flat_offset coords a.strides % (SIZE_MOD : Int)).toNat < a.data.length
    · have hstore : store a.data v (Ptr.elem (flat_offset coords a.strides % (SIZE_MOD : Int)))
          = some (a.data.set (flat_offset coords a.strides % (SIZE_MOD : Int)).toNat v) := by
        simp [store, hp0, hin]
      rw [hstore]
      simp only
      rw [get_eq_deref ⟨a.data.set (flat_offset coords a.strides % (SIZE_MOD : Int)).toNat v,
        a.shape, a.strides⟩ coords hne hlen hst]
      simp [deref, hp0, hin]
    · have hstore : store a.data v (Ptr.elem (flat_offset coords a.strides % (SIZE_MOD : Int)))
          = none := by
        simp [store, hin]
      rw [hstore] at hf
      simp at hf
  have hsuff : 0 ≤ flat_offset coords a.strides →
      flat_offset coords a.strides < (a.size : Int) → (a.get_write coords v).fault = none := by
    intro h0 h1
    obtain ⟨j, hj⟩ := Int.eq_ofNat_of_zero_le h0
    have hjl : j < a.data.length := by
      simp only [MultiArray.size] at h1
      omega
    rw [get_write_in_buffer a coords v hne hlen hst j hj (by omega) hjl]
  refine ⟨fun hf => ⟨hmain hf, by rw [get_const_eq]; exact hmain hf⟩, ?_⟩
  intro h0 h1
  have hf := hsuff h0 h1
  exact ⟨hf, hmain hf, by rw [get_const_eq]; exact hmain hf⟩

/-- C12, witness: with shape `[2,3]`, writing `9` at `[1,2]` and reading it
back. -/
theorem get_round_trip_witness :
    (([2, 3] : List Nat) ≠ [] ∧
      (0 : Int) ≤ flat_offset [1, 2] ((MultiArray.empty_array Int).reshape [2, 3]).state.strides ∧
      flat_offset [1, 2] ((MultiArray.empty_array Int).reshape [2, 3]).state.strides
        < (((MultiArray.empty_array Int).reshape [2, 3]).state.size : Int)) ∧
    (((MultiArray.empty_array Int).reshape [2, 3]).state.get_write [1, 2] 9).fault = none ∧
    (((MultiArray.empty_array Int).reshape [2, 3]).state.get_write [1, 2] 9).state.get [1, 2]
      = Except.ok 9 ∧
    (((MultiArray.empty_array Int).reshape [2, 3]).state.get_write [1, 2] 9).state.get_const
      [1, 2] = Except.ok 9 :=
  ⟨⟨by decide, by decide, by decide⟩,
    (get_round_trip (MultiArray.empty_array Int) [2, 3] (by decide) [1, 2] (by decide) 9).2
      (by decide) (by decide)⟩

/-- C12, counterexample to the claim as stated: with shape `[2,3]` (six
elements) the full-length coordinate `[5,5]` addresses the position `20`,
outside the buffer; the write through `get([5,5])` is an access outside the
buffer, undefined behaviour, and so is the read. -/
theorem get_round_trip_outside :
    ((MultiArray.empty_array Int).reshape [2, 3]).state.size = 6 ∧
    ([5, 5] : List Int).length = ((MultiArray.empty_array Int).reshape [2, 3]).state.num_dims ∧
    ((MultiArray.empty_array Int).reshape [2, 3]).state.op_index [5, 5]
      = Except.ok ⟨Ptr.elem 20, Ptr.elem 21⟩ ∧
    (((MultiArray.empty_array Int).reshape [2, 3]).state.get_write [5, 5] 9).fault
      = some Fault.undefined ∧
    (((MultiArray.empty_array Int).reshape [2, 3]).state.get_write [5, 5] 9).state.get [5, 5]
      = Except.error Fault.undefined :=
  ⟨by decide, by decide, rfl, by decide, rfl⟩

/-- C13 (as amended).  For every array state, every non-empty shape `s` and every
fill value `v`, `reshape(s, v)` and the constructor taking `(s, v)` return
normally with `size()` equal to the product of `s` reduced modulo `2 ^ 64` (the
exact product when it is below `2 ^ 64`) and every element `data[j]`,
`j < size()`, equal to `v`. -/
theorem reshape_fill_all {T : Type} [Inhabited T] (a : MultiArray T) (s : List Nat)
    (hs : s ≠ []) (v : T) :
    ((a.reshape_fill s v).fault = none ∧
      (a.reshape_fill s v).state.size = s.prod % SIZE_MOD ∧
      (s.prod < SIZE_MOD → (a.reshape_fill s v).state.size = s.prod) ∧
      (a.reshape_fill s v).state.shape = s ∧
      ∀ j, j < (a.reshape_fill s v).state.size →
        (a.reshape_fill s v).state.data[j]? = some v) ∧
    ((MultiArray.construct_fill s v).fault = none ∧
      (MultiArray.construct_fill s v).state.size = s.prod % SIZE_MOD ∧
      (s.prod < SIZE_MOD → (MultiArray.construct_fill s v).state.size = s.prod) ∧
      (MultiArray.construct_fill s v).state.shape = s ∧
      ∀ j, j < (MultiArray.construct_fill s v).state.size →
        (MultiArray.construct_fill s v).state.data[j]? = some v) := by
  have key : ∀ b : MultiArray T,
      (b.reshape_fill s v).fault = none ∧
      (b.reshape_fill s v).state.size = s.prod % SIZE_MOD ∧
      (s.prod < SIZE_MOD → (b.reshape_fill s v).state.size = s.prod) ∧
      (b.reshape_fill s v).state.shape = s ∧
      ∀ j, j < (b.reshape_fill s v).state.size →
        (b.reshape_fill s v).state.data[j]? = some v := by
    intro b
    rw [reshape_fill_spec b s hs v]
    have hsz : (List.map (fun _ => v) (vector_resize b.data (product s) default)).length
        = s.prod % SIZE_MOD := by
      simp [length_vector_resize, product_eq]
    refine ⟨rfl, hsz, ?_, rfl, ?_⟩
    · intro h
      simp only [MultiArray.size]
      rw [hsz, Nat.mod_eq_of_lt h]
    · intro j hj
      simp only [MultiArray.size] at hj
      rw [List.getElem?_eq_getElem hj]
      simp
  exact ⟨key a, key (MultiArray.empty_array T)⟩

/-- C13, witness: filling the shape `[2,2]` with `7`. -/
theorem reshape_fill_all_witness :
    ([2, 2] : List Nat) ≠ [] ∧
    ((MultiArray.empty_array Int).reshape_fill [2, 2] 7).state.data = [7, 7, 7, 7] ∧
    ((MultiArray.empty_array Int).reshape_fill [2, 2] 7).state.size
      = ([2, 2] : List Nat).prod % SIZE_MOD :=
  ⟨by decide, by decide,
    (reshape_fill_all (MultiArray.empty_array Int) [2, 2] (by decide) 7).1.2.1⟩

/-- C13, counterexample to the claim as stated: `reshape([2^63 + 1, 2], 7)`
returns normally with the two-element buffer `[7, 7]`, whereas the product of
the shape is `2 ^ 64 + 2`. -/
theorem reshape_fill_size_overflow :
    ((MultiArray.empty_array Int).reshape_fill [2 ^ 63 + 1, 2] 7).fault = none ∧
    ((MultiArray.empty_array Int).reshape_fill [2 ^ 63 + 1, 2] 7).state.data = [7, 7] ∧
    ((MultiArray.empty_array Int).reshape_fill [2 ^ 63 + 1, 2] 7).state.size = 2 ∧
    ([2 ^ 63 + 1, 2] : List Nat).prod = 2 ^ 64 + 2 ∧
    ((MultiArray.empty_array Int).reshape_fill [2 ^ 63 + 1, 2] 7).state.size
      ≠ ([2 ^ 63 + 1, 2] : List Nat).prod :=
  ⟨by decide, by decide, by decide, by decide, by decide⟩

/-- C14 (as amended).  `reshape` without a fill value resizes the buffer and
moves nothing: for every array with old buffer `d` and every non-empty shape
`s`, `reshape(s)` returns normally, the new buffer has length `product(s)`
reduced modulo `2 ^ 64` (the exact product when it is below `2 ^ 64`),
`data[j] == d[j]` for every `j` below both the old and the new length, and every
element at `j >= len(d)` is the default value of `T`. -/
theorem reshape_keeps_buffer {T : Type} [Inhabited T] (a : MultiArray T) (s : List Nat)
    (hs : s ≠ []) :
    (a.reshape s).fault = none ∧
    (a.reshape s).state.data.length = s.prod % SIZE_MOD ∧
    (s.prod < SIZE_MOD → (a.reshape s).state.data.length = s.prod) ∧
    (∀ j, j < a.data.length → j < (a.reshape s).state.data.length →
      (a.reshape s).state.data[j]? = a.data[j]?) ∧
    (∀ j, a.data.length ≤ j → j < (a.reshape s).state.data.length →
      (a.reshape s).state.data[j]? = some default) := by
  rw [reshape_spec a s hs]
  have hsz : (vector_resize a.data (product s) (default : T)).length = s.prod % SIZE_MOD := by
    rw [length_vector_resize, product_eq]
  refine ⟨rfl, hsz, ?_, ?_, ?_⟩
  · intro h
    simp only
    rw [hsz, Nat.mod_eq_of_lt h]
  · intro j h1 h2
    simp only at h2 ⊢
    rw [length_vector_resize] at h2
    exact getElem?_vector_resize_old _ _ _ j h1 h2
  · intro j h1 h2
    simp only at h2 ⊢
    rw [length_vector_resize] at h2
    exact getElem?_vector_resize_new _ _ _ j h1 h2

/-- C14, witness: an array of shape `[2,3]` holding `0..5` reshaped to `[3,2]`
keeps its buffer, so the coordinate `[1,0]`, which addressed the value `3`,
now addresses the value `2`; reshaped to `[2,4]` the buffer is extended by
default values. -/
theorem reshape_keeps_buffer_witness :
    ([3, 2] : List Nat) ≠ [] ∧
    ((⟨[0, 1, 2, 3, 4, 5], [2, 3], [3, 1]⟩ : MultiArray Int).reshape [3, 2]).fault = none ∧
    ((⟨[0, 1, 2, 3, 4, 5], [2, 3], [3, 1]⟩ : MultiArray Int).reshape [3, 2]).state.data
      = [0, 1, 2, 3, 4, 5] ∧
    (⟨[0, 1, 2, 3, 4, 5], [2, 3], [3, 1]⟩ : MultiArray Int).get [1, 0] = Except.ok 3 ∧
    ((⟨[0, 1, 2, 3, 4, 5], [2, 3], [3, 1]⟩ : MultiArray Int).reshape [3, 2]).state.get [1, 0]
      = Except.ok 2 ∧
    ((⟨[0, 1, 2, 3, 4, 5], [2, 3], [3, 1]⟩ : MultiArray Int).reshape [2, 4]).state.data
      = [0, 1, 2, 3, 4, 5, 0, 0] :=
  ⟨by decide,
    (reshape_keeps_buffer (⟨[0, 1, 2, 3, 4, 5], [2, 3], [3, 1]⟩ : MultiArray Int) [3, 2]
      (by decide)).1,
    by decide, rfl, rfl, by decide⟩

/-- C14, counterexample to the claim as stated: reshaping a three-element buffer
to `[2^63 + 1, 2]` leaves the two-element buffer `[1, 2]`; the product of the
shape is `2 ^ 64 + 2`, and the index `2`, below `min(3, 2^64 + 2)`, has no
element any more. -/
theorem reshape_buffer_length_overflow :
    ((⟨[1, 2, 3], [3], [1]⟩ : MultiArray Int).reshape [2 ^ 63 + 1, 2]).fault = none ∧
    ((⟨[1, 2, 3], [3], [1]⟩ : MultiArray Int).reshape [2 ^ 63 + 1, 2]).state.data = [1, 2] ∧
    ([2 ^ 63 + 1, 2] : List Nat).prod = 2 ^ 64 + 2 ∧
    2 < min ([1, 2, 3] : List Int).length ([2 ^ 63 + 1, 2] : List Nat).prod ∧
    ((⟨[1, 2, 3], [3], [1]⟩ : MultiArray Int).reshape [2 ^ 63 + 1, 2]).state.data[2]? = none ∧
    ([1, 2, 3] : List Int)[2]? = some 3 :=
  ⟨by decide, by decide, by decide, by decide, by decide, by decide⟩

/-- C15 (as amended).  For every non-empty shape `s`, `reshape(s)` returns
normally and afterwards the array is empty (`empty() == true`, `size() == 0`)
if and only if the product of `s` is `0` modulo `2 ^ 64`: it is empty whenever
some entry of `s` is `0`, and when the product of `s` is below `2 ^ 64` it is
empty only then.  In every case the strides follow the row-major rule in
`size_t` arithmetic. -/
theorem reshape_empty_iff {T : Type} [Inhabited T] (a : MultiArray T) (s : List Nat)
    (hs : s ≠ []) :
    (a.reshape s).fault = none ∧
    ((a.reshape s).state.empty = true ↔ (a.reshape s).state.size = 0) ∧
    ((a.reshape s).state.empty = true ↔ s.prod % SIZE_MOD = 0) ∧
    (0 ∈ s → (a.reshape s).state.empty = true ∧ (a.reshape s).state.size = 0) ∧
    (s.prod < SIZE_MOD → ((a.reshape s).state.empty = true ↔ 0 ∈ s)) ∧
    (a.reshape s).state.strides.length = s.length ∧
    (∀ i, i < s.length →
      (a.reshape s).state.strides[i]? = some ((s.drop (i + 1)).prod % SIZE_MOD)) := by
  rw [reshape_spec a s hs]
  have hsz : (vector_resize a.data (product s) (default : T)).length = s.prod % SIZE_MOD := by
    rw [length_vector_resize, product_eq]
  have hemp : ∀ l : List T, l.isEmpty = true ↔ l.length = 0 := by
    intro l
    cases l <;> simp
  have h1 : (vector_resize a.data (product s) (default : T)).isEmpty = true
      ↔ s.prod % SIZE_MOD = 0 := by
    rw [hemp, hsz]
  refine ⟨rfl, ?_, h1, ?_, ?_, length_row_major s, fun i hi => getElem?_row_major s i hi⟩
  · simp only [MultiArray.empty, MultiArray.size]
    exact hemp _
  · intro h0
    have hp : s.prod = 0 := List.prod_eq_zero_iff.mpr h0
    simp only [MultiArray.empty, MultiArray.size]
    rw [h1, hsz, hp]
    exact ⟨rfl, rfl⟩
  · intro hlt
    simp only [MultiArray.empty]
    rw [h1, Nat.mod_eq_of_lt hlt]
    exact List.prod_eq_zero_iff

/-- C15, witness: `reshape([0,4])` gives `size() == 0`, `empty() == true` and
strides `[4,1]`. -/
theorem reshape_empty_iff_witness :
    (([0, 4] : List Nat) ≠ [] ∧ (0 : Nat) ∈ ([0, 4] : List Nat)) ∧
    (((MultiArray.empty_array Int).reshape [0, 4]).state.empty = true ∧
      ((MultiArray.empty_array Int).reshape [0, 4]).state.size = 0) ∧
    ((MultiArray.empty_array Int).reshape [0, 4]).state.strides = [4, 1] :=
  ⟨⟨by decide, by decide⟩,
    (reshape_empty_iff (MultiArray.empty_array Int) [0, 4] (by decide)).2.2.2.1 (by decide),
    by decide⟩

/-- C15, counterexample to the claim as stated: after `reshape([2^63, 2])` the
array is empty although no entry of the shape is `0`. -/
theorem reshape_empty_without_zero :
    ((MultiArray.empty_array Int).reshape [2 ^ 63, 2]).fault = none ∧
    ((MultiArray.empty_array Int).reshape [2 ^ 63, 2]).state.empty = true ∧
    ((MultiArray.empty_array Int).reshape [2 ^ 63, 2]).state.size = 0 ∧
    (0 : Nat) ∉ ([2 ^ 63, 2] : List Nat) ∧
    ((MultiArray.empty_array Int).reshape [2 ^ 63, 2]).state.strides = [2, 1] :=
  ⟨by decide, by decide, by decide, by decide, by decide⟩

/-- C16 (as amended).  In every state reached from a default-constructed array
by any sequence of `reshape`, `reshape` with fill value, `assign` and writes
through `get`, in executions where no allocation throws (calls that stop on an
assertion, a check or an undefined access included), `strides` is the row-major
stride table of `shape` (in `size_t` arithmetic).  Hence for two such arrays `a`
and `b`: `a == b` holds iff `a.data == b.data` and `a.shape == b.shape`, equal
shapes give equal strides, and `a == b` implies `a.strides == b.strides`. -/
theorem reachable_strides_function_of_shape {T : Type} [Inhabited T] [DecidableEq T]
    (a b : MultiArray T) (ha : Reachable a) (hb : Reachable b) :
    a.strides = row_major a.shape ∧
    b.strides = row_major b.shape ∧
    (a.op_eq b = true ↔ a.data = b.data ∧ a.shape = b.shape) ∧
    (a.shape = b.shape → a.strides = b.strides) ∧
    (a.op_eq b = true → a.strides = b.strides) ∧
    (a.op_eq b = true ↔ a = b) := by
  have h1 := reachable_strides a ha
  have h2 := reachable_strides b hb
  have heq : a.op_eq b = true ↔ a.data = b.data ∧ a.shape = b.shape := by
    simp [MultiArray.op_eq]
  have hsh : a.shape = b.shape → a.strides = b.strides := by
    intro h
    rw [h1, h2, h]
  refine ⟨h1, h2, heq, hsh, fun h => hsh (heq.mp h).2, ?_⟩
  constructor
  · intro h
    obtain ⟨e1, e2⟩ := heq.mp h
    have e3 := hsh e2
    cases a
    cases b
    simp only at e1 e2 e3
    subst e1
    subst e2
    subst e3
    rfl
  · intro h
    subst h
    exact heq.mpr ⟨rfl, rfl⟩

/-- C16, witness: two arrays of shape `[3,2]`, one reshaped directly and one by
way of the shape `[6]`. -/
theorem reachable_strides_function_of_shape_witness :
    (Reachable ((MultiArray.empty_array Int).reshape [3, 2]).state ∧
      Reachable (((MultiArray.empty_array Int).reshape [6]).state.reshape [3, 2]).state ∧
      ((MultiArray.empty_array Int).reshape [3, 2]).state.strides = [2, 1] ∧
      (((MultiArray.empty_array Int).reshape [6]).state.reshape [3, 2]).state.strides = [2, 1] ∧
      MultiArray.op_eq ((MultiArray.empty_array Int).reshape [3, 2]).state
        (((MultiArray.empty_array Int).reshape [6]).state.reshape [3, 2]).state = true) ∧
    (((MultiArray.empty_array Int).reshape [3, 2]).state.strides
        = row_major ((MultiArray.empty_array Int).reshape [3, 2]).state.shape ∧
      (((MultiArray.empty_array Int).reshape [6]).state.reshape [3, 2]).state.strides
        = row_major
            (((MultiArray.empty_array Int).reshape [6]).state.reshape [3, 2]).state.shape ∧
      (MultiArray.op_eq ((MultiArray.empty_array Int).reshape [3, 2]).state
          (((MultiArray.empty_array Int).reshape [6]).state.reshape [3, 2]).state = true ↔
        ((MultiArray.empty_array Int).reshape [3, 2]).state.data
            = (((MultiArray.empty_array Int).reshape [6]).state.reshape [3, 2]).state.data ∧
          ((MultiArray.empty_array Int).reshape [3, 2]).state.shape
            = (((MultiArray.empty_array Int).reshape [6]).state.reshape [3, 2]).state.shape) ∧
      (((MultiArray.empty_array Int).reshape [3, 2]).state.shape
          = (((MultiArray.empty_array Int).reshape [6]).state.reshape [3, 2]).state.shape →
        ((MultiArray.empty_array Int).reshape [3, 2]).state.strides
          = (((MultiArray.empty_array Int).reshape [6]).state.reshape [3, 2]).state.strides) ∧
      (MultiArray.op_eq ((MultiArray.empty_array Int).reshape [3, 2]).state
          (((MultiArray.empty_array Int).reshape [6]).state.reshape [3, 2]).state = true →
        ((MultiArray.empty_array Int).reshape [3, 2]).state.strides
          = (((MultiArray.empty_array Int).reshape [6]).state.reshape [3, 2]).state.strides) ∧
      (MultiArray.op_eq ((MultiArray.empty_array Int).reshape [3, 2]).state
          (((MultiArray.empty_array Int).reshape [6]).state.reshape [3, 2]).state = true ↔
        ((MultiArray.empty_array Int).reshape [3, 2]).state
          = (((MultiArray.empty_array Int).reshape [6]).state.reshape [3, 2]).state)) :=
  ⟨⟨Reachable.reshape _ _ Reachable.init,
      Reachable.reshape _ _ (Reachable.reshape _ _ Reachable.init), by decide, by decide,
      by decide⟩,
    reachable_strides_function_of_shape
      ((MultiArray.empty_array Int).reshape [3, 2]).state
      (((MultiArray.empty_array Int).reshape [6]).state.reshape [3, 2]).state
      (Reachable.reshape _ _ Reachable.init)
      (Reachable.reshape _ _ (Reachable.reshape _ _ Reachable.init))⟩

/-- C16, counterexample to the claim as stated: a call of `reshape([2^62,1,1])`
in which `data.resize` throws leaves `shape` already overwritten and `strides`
untouched.  Applied to the arrays of shape `[1,3]` and `[3,1]` it leaves two
arrays with the same three-element buffer and the same shape `[2^62,1,1]`,
hence equal under `==`, whose strides `[3,1]` and `[1,1]` differ from each other
and from the row-major stride table `[1,1,1]` of the shape. -/
theorem reshape_throw_leaves_stale_strides :
    ((MultiArray.empty_array Int).reshape [1, 3]).state.data.length
      < product [2 ^ 62, 1, 1] ∧
    (((MultiArray.empty_array Int).reshape [1, 3]).state.reshape_resize_throws
      [2 ^ 62, 1, 1]).fault = some Fault.alloc ∧
    (((MultiArray.empty_array Int).reshape [1, 3]).state.reshape_resize_throws
      [2 ^ 62, 1, 1]).state.shape = [2 ^ 62, 1, 1] ∧
    (((MultiArray.empty_array Int).reshape [1, 3]).state.reshape_resize_throws
      [2 ^ 62, 1, 1]).state.strides = [3, 1] ∧
    row_major [2 ^ 62, 1, 1] = [1, 1, 1] ∧
    (((MultiArray.empty_array Int).reshape [1, 3]).state.reshape_resize_throws
      [2 ^ 62, 1, 1]).state.strides
      ≠ row_major (((MultiArray.empty_array Int).reshape [1, 3]).state.reshape_resize_throws
          [2 ^ 62, 1, 1]).state.shape ∧
    (((MultiArray.empty_array Int).reshape [3, 1]).state.reshape_resize_throws
      [2 ^ 62, 1, 1]).state.strides = [1, 1] ∧
    MultiArray.op_eq
      (((MultiArray.empty_array Int).reshape [3, 1]).state.reshape_resize_throws
        [2 ^ 62, 1, 1]).state
      (((MultiArray.empty_array Int).reshape [1, 3]).state.reshape_resize_throws
        [2 ^ 62, 1, 1]).state = true ∧
    (((MultiArray.empty_array Int).reshape [3, 1]).state.reshape_resize_throws
      [2 ^ 62, 1, 1]).state.strides
      ≠ (((MultiArray.empty_array Int).reshape [1, 3]).state.reshape_resize_throws
          [2 ^ 62, 1, 1]).state.strides :=
  ⟨by decide, by decide, by decide, by decide, by decide, by decide, by decide, by decide,
    by decide⟩

/-- C17 (as amended).  In-bounds addressing: for every array obtained by
`reshape(s)` where the product of `s` is below `2 ^ 64`, and every `coords` with
`in_range(coords)`, indexing returns a View `[start, end)` with
`0 <= start <= end <= size()`; for a full in-range coordinate the flat offset
is `start`, it is `< size()`, and `get` returns the element stored there. -/
theorem op_index_in_bounds {T : Type} [Inhabited T] (a0 : MultiArray T) (s : List Nat)
    (hs : s ≠ []) (hprod : s.prod < SIZE_MOD) (coords : List Int)
    (hint : ∀ z ∈ coords, INT_MIN ≤ z ∧ z ≤ INT_MAX)
    (hin : (a0.reshape s).state.in_range coords = true) :
    ∃ start stop : Int,
      (a0.reshape s).state.op_index coords = Except.ok ⟨Ptr.elem start, Ptr.elem stop⟩ ∧
      0 ≤ start ∧ start ≤ stop ∧ stop ≤ ((a0.reshape s).state.size : Int) ∧
      (coords.length = (a0.reshape s).state.num_dims →
        flat_offset coords (a0.reshape s).state.strides = start ∧
        start < ((a0.reshape s).state.size : Int) ∧
        ∃ x, (a0.reshape s).state.data[start.toNat]? = some x ∧
          (a0.reshape s).state.get coords = Except.ok x) := by
  have hcl := in_range_length _ _ hin
  have hcr := in_range_loop_of_in_range _ _ hin
  rw [reshape_spec a0 s hs] at hcl hcr ⊢
  simp only [MultiArray.num_dims, MultiArray.size] at hcl hcr ⊢
  have hsz : ((vector_resize a0.data (product s) (default : T)).length : Int)
      = (s.prod : Int) := by
    rw [length_vector_resize, product_eq, Nat.mod_eq_of_lt hprod]
  by_cases hnil : coords = []
  · subst hnil
    refine ⟨0, _, op_index_nil _, le_refl _, Int.ofNat_nonneg _, le_refl _, ?_⟩
    intro hl
    have : s = [] := List.length_eq_zero.mp hl.symm
    exact absurd this hs
  · obtain ⟨w, hw, b0, b1⟩ := prefix_bounds s coords hprod hnil hcl hint hcr
    have hM : (s.prod : Int) < (SIZE_MOD : Int) := by exact_mod_cast hprod
    have hop := op_index_exact (⟨vector_resize a0.data (product s) default, s,
      row_major s⟩ : MultiArray T) coords hnil hcl (length_row_major s) w hw b0 (by simp only; omega)
    simp only at hop
    have hw0 : (0 : Int) ≤ (w : Int) := Int.ofNat_nonneg _
    refine ⟨_, _, hop, b0, by omega, by rw [hsz]; exact b1, ?_⟩
    intro hl
    rw [hl, row_major_last s hs] at hw
    cases hw
    have hlt : flat_offset coords (row_major s)
        < ((vector_resize a0.data (product s) (default : T)).length : Int) := by
      rw [hsz]
      have := b1
      simp only [Nat.cast_one] at this
      omega
    refine ⟨rfl, hlt, ?_⟩
    obtain ⟨j, hj⟩ := Int.eq_ofNat_of_zero_le b0
    have hjl : j < (vector_resize a0.data (product s) (default : T)).length := by
      rw [hj] at hlt
      omega
    refine ⟨(vector_resize a0.data (product s) (default : T))[j], ?_, ?_⟩
    · rw [hj]
      simp [List.getElem?_eq_getElem hjl]
    · rw [get_in_buffer (⟨vector_resize a0.data (product s) default, s,
        row_major s⟩ : MultiArray T) coords hnil hl (length_row_major s) j hj
        (by rw [hj] at hlt; rw [hsz] at hlt; omega)]
      simp [List.getElem?_eq_getElem hjl]

/-- C17, witness: shape `[2,3]` and the full in-range coordinate `[1,2]`. -/
theorem op_index_in_bounds_witness :
    (([2, 3] : List Nat) ≠ [] ∧ ([2, 3] : List Nat).prod < SIZE_MOD ∧
      ((MultiArray.empty_array Int).reshape [2, 3]).state.in_range [1, 2] = true) ∧
    ((MultiArray.empty_array Int).reshape [2, 3]).state.op_index [1, 2]
      = Except.ok ⟨Ptr.elem 5, Ptr.elem 6⟩ ∧
    ∃ start stop : Int,
      ((MultiArray.empty_array Int).reshape [2, 3]).state.op_index [1, 2]
        = Except.ok ⟨Ptr.elem start, Ptr.elem stop⟩ ∧
      0 ≤ start ∧ start ≤ stop ∧
      stop ≤ (((MultiArray.empty_array Int).reshape [2, 3]).state.size : Int) ∧
      (([1, 2] : List Int).length = ((MultiArray.empty_array Int).reshape [2, 3]).state.num_dims →
        flat_offset [1, 2] ((MultiArray.empty_array Int).reshape [2, 3]).state.strides = start ∧
        start < (((MultiArray.empty_array Int).reshape [2, 3]).state.size : Int) ∧
        ∃ x, ((MultiArray.empty_array Int).reshape [2, 3]).state.data[start.toNat]? = some x ∧
          ((MultiArray.empty_array Int).reshape [2, 3]).state.get [1, 2] = Except.ok x) :=
  ⟨⟨by decide, by decide, by decide⟩, rfl,
    op_index_in_bounds (MultiArray.empty_array Int) [2, 3] (by decide) (by decide) [1, 2]
      (by decide) (by decide)⟩

/-- C17, counterexample to the claim as stated: after
`reshape([3, 2^63 + 1, 2])` the buffer has `6` elements and the strides are
`[2, 2, 1]`; the coordinate `[2, 1, 1]` is in range, yet indexing returns the
View `[7, 8)`, beyond the buffer, and `get` reads outside it. -/
theorem op_index_out_of_bounds_overflow :
    ((MultiArray.empty_array Int).reshape [3, 2 ^ 63 + 1, 2]).fault = none ∧
    ((MultiArray.empty_array Int).reshape [3, 2 ^ 63 + 1, 2]).state.size = 6 ∧
    ((MultiArray.empty_array Int).reshape [3, 2 ^ 63 + 1, 2]).state.strides = [2, 2, 1] ∧
    ((MultiArray.empty_array Int).reshape [3, 2 ^ 63 + 1, 2]).state.in_range [2, 1, 1]
      = true ∧
    ((MultiArray.empty_array Int).reshape [3, 2 ^ 63 + 1, 2]).state.op_index [2, 1, 1]
      = Except.ok ⟨Ptr.elem 7, Ptr.elem 8⟩ ∧
    ((MultiArray.empty_array Int).reshape [3, 2 ^ 63 + 1, 2]).state.get [2, 1, 1]
      = Except.error Fault.undefined :=
  ⟨by decide, by decide, by decide, by decide, rfl, rfl⟩

/-- C18 (as amended).  Coordinate-to-offset is a bijection: for every array
obtained by `reshape(s)` where the product of `s` is below `2 ^ 64` and no entry
of `s` exceeds `2 ^ 31` (so that every coordinate is an `int`), every flat index
`j < size()` is the flat offset of exactly one full coordinate list accepted by
`in_range`, every such coordinate list has its flat offset in `[0, size())`, and
the number of such coordinate lists is `size()`. -/
theorem offset_bijection {T : Type} [Inhabited T] (a0 : MultiArray T) (s : List Nat)
    (hs : s ≠ []) (hprod : s.prod < SIZE_MOD) (hdim : ∀ d ∈ s, d ≤ 2 ^ 31) :
    (∀ j : Nat, j < (a0.reshape s).state.size →
      ∃! coords : List Int, (a0.reshape s).state.full_in_range coords ∧
        flat_offset coords (a0.reshape s).state.strides = (j : Int)) ∧
    (∀ coords : List Int, (a0.reshape s).state.full_in_range coords →
      0 ≤ flat_offset coords (a0.reshape s).state.strides ∧
      flat_offset coords (a0.reshape s).state.strides < ((a0.reshape s).state.size : Int)) ∧
    Nat.card {coords : List Int // (a0.reshape s).state.full_in_range coords}
      = (a0.reshape s).state.size := by
  have hsz : (a0.reshape s).state.size = s.prod := by
    rw [reshape_spec a0 s hs]
    simp [MultiArray.size, length_vector_resize, product_eq, Nat.mod_eq_of_lt hprod]
  have hstr : (a0.reshape s).state.strides = row_major s := by
    rw [reshape_spec a0 s hs]
  have hshape : (a0.reshape s).state.shape = s := by
    rw [reshape_spec a0 s hs]
  have hfull : ∀ coords : List Int, (a0.reshape s).state.full_in_range coords →
      (∀ z ∈ coords, INT_MIN ≤ z ∧ z ≤ INT_MAX) ∧ coords.length = s.length ∧
        in_range_loop coords s = true := by
    intro coords h
    obtain ⟨h1, h2, h3⟩ := h
    have h4 := in_range_loop_of_in_range _ _ h3
    rw [hshape] at h4
    simp only [MultiArray.num_dims, hshape] at h2
    exact ⟨h1, h2, h4⟩
  have hex : ∀ j : Nat, j < (a0.reshape s).state.size →
      ∃! coords : List Int, (a0.reshape s).state.full_in_range coords ∧
        flat_offset coords (a0.reshape s).state.strides = (j : Int) := by
    intro j hj
    rw [hsz] at hj
    obtain ⟨u1, u2, u3⟩ := unravel_spec s j hprod hdim hj
    refine ⟨unravel s j, ⟨⟨u1, ?_, ?_⟩, ?_⟩, ?_⟩
    · simp [MultiArray.num_dims, hshape, length_unravel]
    · simp [MultiArray.in_range, hshape, length_unravel, u2]
    · rw [hstr]; exact u3
    · intro y hy
      obtain ⟨y1, y2, y3⟩ := hfull y hy.1
      have hoff := hy.2
      rw [hstr] at hoff
      exact offset_injective s hprod y (unravel s j) y2 (length_unravel s j) y1 u1 y3 u2
        (by rw [hoff, u3])
  have hbound : ∀ coords : List Int, (a0.reshape s).state.full_in_range coords →
      0 ≤ flat_offset coords (a0.reshape s).state.strides ∧
      flat_offset coords (a0.reshape s).state.strides
        < ((a0.reshape s).state.size : Int) := by
    intro coords h
    obtain ⟨y1, y2, y3⟩ := hfull coords h
    rw [hstr, hsz]
    exact offset_bounds s coords y2 y1 y3 hprod
  refine ⟨hex, hbound, ?_⟩
  have hlt : ∀ c : {coords : List Int // (a0.reshape s).state.full_in_range coords},
      (flat_offset c.1 (a0.reshape s).state.strides).toNat < (a0.reshape s).state.size := by
    intro c
    have := hbound c.1 c.2
    omega
  have hbij : Function.Bijective
      (fun c : {coords : List Int // (a0.reshape s).state.full_in_range coords} =>
        (⟨(flat_offset c.1 (a0.reshape s).state.strides).toNat, hlt c⟩ :
          Fin (a0.reshape s).state.size)) := by
    constructor
    · intro c1 c2 h
      have h' : (flat_offset c1.1 (a0.reshape s).state.strides).toNat
          = (flat_offset c2.1 (a0.reshape s).state.strides).toNat := by
        simpa using congrArg Fin.val h
      have b1 := hbound c1.1 c1.2
      have b2 := hbound c2.1 c2.2
      have heq : flat_offset c1.1 (a0.reshape s).state.strides
          = flat_offset c2.1 (a0.reshape s).state.strides := by omega
      obtain ⟨y1, y2, y3⟩ := hfull c1.1 c1.2
      obtain ⟨z1, z2, z3⟩ := hfull c2.1 c2.2
      rw [hstr] at heq
      exact Subtype.ext (offset_injective s hprod c1.1 c2.1 y2 z2 y1 z1 y3 z3 heq)
    · intro j
      obtain ⟨coords, ⟨hc, hoff⟩, _⟩ := hex j.1 j.2
      refine ⟨⟨coords, hc⟩, ?_⟩
      apply Fin.ext
      simp only
      rw [hoff]
      simp
  rw [Nat.card_eq_of_bijective _ hbij]
  simp

/-- C18, witness: shape `[2,3]`. -/
theorem offset_bijection_witness :
    (([2, 3] : List Nat) ≠ [] ∧ ([2, 3] : List Nat).prod < SIZE_MOD ∧
      ∀ d ∈ ([2, 3] : List Nat), d ≤ 2 ^ 31) ∧
    ((MultiArray.empty_array Int).reshape [2, 3]).state.size = 6 ∧
    Nat.card {coords : List Int //
        ((MultiArray.empty_array Int).reshape [2, 3]).state.full_in_range coords}
      = ((MultiArray.empty_array Int).reshape [2, 3]).state.size :=
  ⟨⟨by decide, by decide, by decide⟩, by decide,
    (offset_bijection (MultiArray.empty_array Int) [2, 3] (by decide) (by decide)
      (by decide)).2.2⟩

/-- C18, counterexample to the claim as stated: after
`reshape([3, 2^63 + 1, 2])` (six elements, strides `[2, 2, 1]`) the flat index `2`
is the flat offset of the two in-range full coordinates `[1,0,0]` and `[0,1,0]`;
and after `reshape([2^31 + 1])` the flat index `2^31`, which is below `size()`,
is the flat offset of no coordinate list with `int` entries. -/
theorem offset_not_bijective :
    (((MultiArray.empty_array Int).reshape [3, 2 ^ 63 + 1, 2]).state.size = 6 ∧
      ((MultiArray.empty_array Int).reshape [3, 2 ^ 63 + 1, 2]).state.num_dims = 3 ∧
      ((MultiArray.empty_array Int).reshape [3, 2 ^ 63 + 1, 2]).state.in_range [1, 0, 0]
        = true ∧
      ((MultiArray.empty_array Int).reshape [3, 2 ^ 63 + 1, 2]).state.in_range [0, 1, 0]
        = true ∧
      flat_offset [1, 0, 0]
        ((MultiArray.empty_array Int).reshape [3, 2 ^ 63 + 1, 2]).state.strides = 2 ∧
      flat_offset [0, 1, 0]
        ((MultiArray.empty_array Int).reshape [3, 2 ^ 63 + 1, 2]).state.strides = 2 ∧
      ([1, 0, 0] : List Int) ≠ [0, 1, 0]) ∧
    (((MultiArray.empty_array Int).reshape [2 ^ 31 + 1]).state.size = 2 ^ 31 + 1 ∧
      ¬ ∃ coords : List Int,
        ((MultiArray.empty_array Int).reshape [2 ^ 31 + 1]).state.full_in_range coords ∧
        flat_offset coords ((MultiArray.empty_array Int).reshape [2 ^ 31 + 1]).state.strides
          = 2 ^ 31) := by
  refine ⟨⟨by decide, by decide, by decide, by decide, by decide, by decide, by decide⟩, ?_⟩
  rw [reshape_spec (MultiArray.empty_array Int) [2 ^ 31 + 1] (by decide)]
  constructor
  · simp only [MultiArray.size, length_vector_resize, product_eq, List.prod_cons,
      List.prod_nil, Nat.mul_one]
    decide
  · rintro ⟨coords, ⟨hint, hlen, _⟩, hoff⟩
    simp only [MultiArray.num_dims, List.length_singleton] at hlen
    match coords, hlen with
    | [c], _ =>
      have hc := (hint c (List.mem_cons_self _ _)).2
      have hI : INT_MAX = 2147483647 := by simp [INT_MAX]
      rw [hI] at hc
      simp only [row_major, List.prod_nil, flat_offset_cons, flat_offset_nil] at hoff
      have h1 : ((1 % SIZE_MOD : Nat) : Int) = 1 := by decide
      rw [h1] at hoff
      have h2 : (2 : Int) ^ 31 = 2147483648 := by norm_num
      rw [h2] at hoff
      omega

/-- C19 (as amended).  Frame of an element write: for every array obtained by
`reshape(s)` where the product of `s` is below `2 ^ 64`, and every pair of
distinct full coordinates `c` and `c2` that are both in range, writing a value
through `get(c)` returns normally, leaves the value read by `get(c2)` (either
overload) unchanged, and leaves `shape`, `strides` and `size()` unchanged. -/
theorem get_write_frame_other {T : Type} [Inhabited T] (a0 : MultiArray T) (s : List Nat)
    (hs : s ≠ []) (hprod : s.prod < SIZE_MOD) (c c2 : List Int)
    (hintc : ∀ z ∈ c, INT_MIN ≤ z ∧ z ≤ INT_MAX)
    (hintc2 : ∀ z ∈ c2, INT_MIN ≤ z ∧ z ≤ INT_MAX)
    (hlc : c.length = (a0.reshape s).state.num_dims)
    (hlc2 : c2.length = (a0.reshape s).state.num_dims)
    (hc : (a0.reshape s).state.in_range c = true)
    (hc2 : (a0.reshape s).state.in_range c2 = true)
    (hne : c ≠ c2) (v : T) :
    ((a0.reshape s).state.get_write c v).fault = none ∧
    ((a0.reshape s).state.get_write c v).state.get c2 = (a0.reshape s).state.get c2 ∧
    ((a0.reshape s).state.get_write c v).state.get_const c2
      = (a0.reshape s).state.get_const c2 ∧
    (∃ y, (a0.reshape s).state.get c2 = Except.ok y) ∧
    ((a0.reshape s).state.get_write c v).state.shape = (a0.reshape s).state.shape ∧
    ((a0.reshape s).state.get_write c v).state.strides = (a0.reshape s).state.strides ∧
    ((a0.reshape s).state.get_write c v).state.size = (a0.reshape s).state.size := by
  have hcr := in_range_loop_of_in_range _ _ hc
  have hc2r := in_range_loop_of_in_range _ _ hc2
  rw [reshape_spec a0 s hs] at hcr hc2r hlc hlc2 ⊢
  simp only [MultiArray.num_dims] at hcr hc2r hlc hlc2 ⊢
  have hlen : (vector_resize a0.data (product s) (default : T)).length = s.prod := by
    rw [length_vector_resize, product_eq, Nat.mod_eq_of_lt hprod]
  obtain ⟨b0, b1⟩ := offset_bounds s c hlc hintc hcr hprod
  obtain ⟨d0, d1⟩ := offset_bounds s c2 hlc2 hintc2 hc2r hprod
  obtain ⟨i, hi⟩ := Int.eq_ofNat_of_zero_le b0
  obtain ⟨j, hj⟩ := Int.eq_ofNat_of_zero_le d0
  have hil : i < (vector_resize a0.data (product s) (default : T)).length := by
    rw [hlen]; omega
  have hjl : j < (vector_resize a0.data (product s) (default : T)).length := by
    rw [hlen]; omega
  have hij : i ≠ j := by
    intro h
    apply hne
    exact offset_injective s hprod c c2 hlc hlc2 hintc hintc2 hcr hc2r (by rw [hi, hj, h])
  have hcne : c ≠ [] := by
    intro h
    rw [h] at hlc
    exact hs (List.length_eq_zero.mp hlc.symm)
  have hc2ne : c2 ≠ [] := by
    intro h
    rw [h] at hlc2
    exact hs (List.length_eq_zero.mp hlc2.symm)
  have hw := get_write_in_buffer (⟨vector_resize a0.data (product s) default, s,
    row_major s⟩ : MultiArray T) c v hcne hlc (length_row_major s) i hi (by omega) hil
  have hbefore := get_in_buffer (⟨vector_resize a0.data (product s) default, s,
    row_major s⟩ : MultiArray T) c2 hc2ne hlc2 (length_row_major s) j hj (by omega)
  have hafter := get_in_buffer (⟨(vector_resize a0.data (product s) default).set i v, s,
    row_major s⟩ : MultiArray T) c2 hc2ne hlc2 (length_row_major s) j hj (by omega)
  simp only at hbefore hafter
  rw [List.getElem?_set_ne hij] at hafter
  have hsame : ((⟨vector_resize a0.data (product s) default, s,
      row_major s⟩ : MultiArray T).get_write c v).state.get c2
      = (⟨vector_resize a0.data (product s) default, s, row_major s⟩ : MultiArray T).get c2 := by
    rw [hw, hbefore]
    exact hafter
  refine ⟨by rw [hw], hsame, by rw [get_const_eq, get_const_eq]; exact hsame, ?_,
    by rw [hw], by rw [hw], ?_⟩
  · refine ⟨(vector_resize a0.data (product s) (default : T))[j], ?_⟩
    rw [hbefore, List.getElem?_eq_getElem hjl]
  · rw [hw]
    simp [MultiArray.size]

/-- C19, witness: shape `[2,3]`, a write at `[0,1]` and a read at `[1,1]`. -/
theorem get_write_frame_other_witness :
    (([2, 3] : List Nat) ≠ [] ∧ ([2, 3] : List Nat).prod < SIZE_MOD ∧
      ((MultiArray.empty_array Int).reshape [2, 3]).state.in_range [0, 1] = true ∧
      ((MultiArray.empty_array Int).reshape [2, 3]).state.in_range [1, 1] = true ∧
      ([0, 1] : List Int) ≠ [1, 1]) ∧
    (((MultiArray.empty_array Int).reshape [2, 3]).state.get_write [0, 1] 9).state.data
      = [0, 9, 0, 0, 0, 0] ∧
    (((MultiArray.empty_array Int).reshape [2, 3]).state.get_write [0, 1] 9).state.get [1, 1]
      = ((MultiArray.empty_array Int).reshape [2, 3]).state.get [1, 1] :=
  ⟨⟨by decide, by decide, by decide, by decide, by decide⟩, by decide,
    (get_write_frame_other (MultiArray.empty_array Int) [2, 3] (by decide) (by decide)
      [0, 1] [1, 1] (by decide) (by decide) (by decide) (by decide) (by decide) (by decide)
      (by decide) 9).2.1⟩

/-- C19, counterexample to the claim as stated: after
`reshape([3, 2^63 + 1, 2])` of a buffer holding `10..15` (six elements kept,
strides `[2, 2, 1]`) the distinct in-range full coordinates `[1,0,0]` and
`[0,1,0]` address the same element: writing `99` through `get([1,0,0])`
changes the value read by `get([0,1,0])` from `12` to `99`. -/
theorem get_write_aliases_overflow :
    ((⟨[10, 11, 12, 13, 14, 15], [], []⟩ : MultiArray Int).reshape
      [3, 2 ^ 63 + 1, 2]).state.in_range [1, 0, 0] = true ∧
    ((⟨[10, 11, 12, 13, 14, 15], [], []⟩ : MultiArray Int).reshape
      [3, 2 ^ 63 + 1, 2]).state.in_range [0, 1, 0] = true ∧
    ([1, 0, 0] : List Int) ≠ [0, 1, 0] ∧
    ((⟨[10, 11, 12, 13, 14, 15], [], []⟩ : MultiArray Int).reshape
      [3, 2 ^ 63 + 1, 2]).state.get [0, 1, 0] = Except.ok 12 ∧
    (((⟨[10, 11, 12, 13, 14, 15], [], []⟩ : MultiArray Int).reshape
      [3, 2 ^ 63 + 1, 2]).state.get_write [1, 0, 0] 99).fault = none ∧
    (((⟨[10, 11, 12, 13, 14, 15], [], []⟩ : MultiArray Int).reshape
      [3, 2 ^ 63 + 1, 2]).state.get_write [1, 0, 0] 99).state.get [0, 1, 0] = Except.ok 99 :=
  ⟨by decide, by decide, by decide, rfl, by decide, rfl⟩

/-- C20.  `get` and direct indexing check only the number of coordinates: in the
array of shape `[2,3]` holding `10..15`, the full-length coordinate `[0,3]` is
not in range, yet `get([0,3])` (either overload) returns normally; indexing
yields the View `[3, 4)`, and the value returned, `13`, is the element of the
different, in-range coordinate `[1,0]`. -/
theorem get_ignores_coordinate_values :
    ∃ (a : MultiArray Int) (coords coords2 : List Int) (x : Int),
      a = ((⟨[10, 11, 12, 13, 14, 15], [], []⟩ : MultiArray Int).reshape [2, 3]).state ∧
      coords = [0, 3] ∧ coords2 = [1, 0] ∧ x = 13 ∧
      coords.length = a.num_dims ∧ a.in_range coords = false ∧
      a.get coords = Except.ok x ∧ a.get_const coords = Except.ok x ∧
      a.op_index coords = Except.ok ⟨Ptr.elem 3, Ptr.elem 4⟩ ∧
      flat_offset coords a.strides = 3 ∧
      coords2 ≠ coords ∧ coords2.length = a.num_dims ∧ a.in_range coords2 = true ∧
      flat_offset coords2 a.strides = 3 ∧
      a.get coords2 = Except.ok x :=
  ⟨_, _, _, _, rfl, rfl, rfl, rfl, by decide, by decide, rfl, rfl, rfl, by decide, by decide,
    by decide, by decide, by decide, rfl⟩

end rnnlib
